import Mathlib

/-!
Verification of the metadata resolution & reconciliation pipeline of the
music_game repository.  Python strings are modelled as `List Char`; the
regex-based transforms of the scripts are embedded as executable functions
on character lists.  ASCII semantics are used for case mapping and the
`\s` character class (the pipeline's data is ASCII-safe slugs, CSV fields
and JSON keys).
-/

namespace PyStr

/-- ASCII whitespace, the characters matched by the `\s` class and stripped
by `str.strip()`. -/
def isSpace (c : Char) : Bool :=
  c = ' ' || c = '\t' || c = '\n' || c = '\r' || c = '\x0b' || c = '\x0c'

/-- `str.lower()` (ASCII). -/
def lowerStr (s : List Char) : List Char := s.map Char.toLower

/-- Drop leading characters satisfying `p`. -/
def lstripP (p : Char → Bool) : List Char → List Char
  | [] => []
  | c :: cs => if p c then lstripP p cs else c :: cs

/-- Drop trailing characters satisfying `p`. -/
def rstripP (p : Char → Bool) (s : List Char) : List Char :=
  (lstripP p s.reverse).reverse

/-- Drop characters satisfying `p` from both ends. -/
def stripP (p : Char → Bool) (s : List Char) : List Char :=
  rstripP p (lstripP p s)

/-- `str.strip()`. -/
def stripWs (s : List Char) : List Char := stripP isSpace s

/-- `str.strip(chars)`: strip any of the given characters from both ends. -/
def stripIn (cs : List Char) (s : List Char) : List Char :=
  stripP (fun c => cs.contains c) s

/-- `re.sub(r"\s+", " ", s)`: every maximal whitespace run becomes a single
space.  The boolean records whether we are inside a run. -/
def collapseWsGo : Bool → List Char → List Char
  | _, [] => []
  | inRun, c :: cs =>
    if isSpace c then
      if inRun then collapseWsGo true cs else ' ' :: collapseWsGo true cs
    else c :: collapseWsGo false cs

def collapseWs (s : List Char) : List Char := collapseWsGo false s

/-- Characters kept verbatim by `_slugify`'s substitution class `[a-z0-9]`. -/
def isLowAlnum (c : Char) : Bool :=
  ('a' ≤ c && c ≤ 'z') || ('0' ≤ c && c ≤ '9')

/-- `re.sub(r"[^a-z0-9]+", "-", s)`: every maximal run outside `[a-z0-9]`
becomes a single hyphen. -/
def slugSubGo : Bool → List Char → List Char
  | _, [] => []
  | inRun, c :: cs =>
    if isLowAlnum c then c :: slugSubGo false cs
    else if inRun then slugSubGo true cs
    else '-' :: slugSubGo true cs

def slugSub (s : List Char) : List Char := slugSubGo false s

/-- Test whether `pre` is an initial segment of `s`. -/
def startsWith : List Char → List Char → Bool
  | [], _ => true
  | _ :: _, [] => false
  | p :: ps, c :: cs => p = c && startsWith ps cs

/-- Case-insensitive `startsWith`. -/
def startsWithCI (pre s : List Char) : Bool :=
  startsWith (lowerStr pre) (lowerStr s)

/-- Substring containment (used for the compilation-hint check `hint in album`). -/
def containsSub (needle : List Char) : List Char → Bool
  | [] => startsWith needle []
  | c :: cs => startsWith needle (c :: cs) || containsSub needle cs

end PyStr

namespace BuildMeta

open PyStr

/-- The fixed pitch-class table of `build_tamil_metadata.py` /
`build_english_metadata.py` (line 12 of each). -/
def KEY_NAMES : List (List Char) :=
  ["C".data, "C#/Db".data, "D".data, "D#/Eb".data, "E".data, "F".data,
   "F#/Gb".data, "G".data, "G#/Ab".data, "A".data, "A#/Bb".data, "B".data]

/-- `_slugify(value, max_len=80)` from the metadata builders (lines 25-30):
lowercase and strip, replace runs outside `[a-z0-9]` by one hyphen, strip
hyphens, substitute the fallback token for an empty result, truncate to 80
characters, and strip hyphens again. -/
def _slugify (value : List Char) : List Char :=
  let v := stripWs (lowerStr value)
  let v := stripIn ['-'] (slugSub v)
  let v := if v = [] then "song".data else v
  stripIn ['-'] (v.take 80)

/-- `_safe_filename` character class `[A-Za-z0-9 _.-]`. -/
def isSafeChar (c : Char) : Bool :=
  ('A' ≤ c && c ≤ 'Z') || ('a' ≤ c && c ≤ 'z') || ('0' ≤ c && c ≤ '9') ||
    c = ' ' || c = '_' || c = '.' || c = '-'

/-- `re.sub(r"[^A-Za-z0-9 _.-]+", "_", s)`. -/
def safeSubGo : Bool → List Char → List Char
  | _, [] => []
  | inRun, c :: cs =>
    if isSafeChar c then c :: safeSubGo false cs
    else if inRun then safeSubGo true cs
    else '_' :: safeSubGo true cs

/-- `_safe_filename(value, max_len=160)` (lines 15-22). -/
def _safe_filename (value : List Char) : List Char :=
  let v := stripWs value
  let v := collapseWs v
  let v := safeSubGo false v
  let v := stripIn [' ', '.', '_', '-'] v
  if v = [] then "audio_preview".data else v.take 160

/-- Outcome of Python's `int(float(s))` on a raw CSV field: a finite value
truncated toward zero, a `ValueError` (caught by `_format_key`), or an
`OverflowError` (not caught, as only `ValueError` is handled). -/
inductive NumParse where
  | ok (n : Int)
  | valueErr
  | overflowErr
deriving DecidableEq

def isDigit (c : Char) : Bool := '0' ≤ c && c ≤ '9'

def digitVal (c : Char) : Nat := c.toNat - '0'.toNat

def digitsToNat (ds : List Char) : Nat :=
  ds.foldl (fun acc c => acc * 10 + digitVal c) 0

/-- Split a leading run of decimal digits. -/
def takeDigits : List Char → List Char × List Char
  | [] => ([], [])
  | c :: cs =>
    if isDigit c then
      let (ds, rest) := takeDigits cs
      (c :: ds, rest)
    else ([], c :: cs)

/-- The decimal part of the float grammar after the optional sign:
digits, optional fraction, optional exponent.  Returns the exact value as
`mantissa * 10 ^ exponent` data `(m, fracLen, exp)` meaning
`m / 10^fracLen * 10^exp`, or `none` for a `ValueError`. -/
def parseDecimal (s : List Char) : Option (Nat × Nat × Int) :=
  let (ipart, rest) := takeDigits s
  let (fpart, rest2) :=
    match rest with
    | '.' :: tl => takeDigits tl
    | _ => ([], rest)
  if ipart = [] && fpart = [] then none
  else
    let mant := digitsToNat (ipart ++ fpart)
    let flen := fpart.length
    match rest2 with
    | [] => some (mant, flen, 0)
    | e :: tl =>
      if e = 'e' || e = 'E' then
        let (esign, ds) :=
          match tl with
          | '+' :: ds => ((1 : Int), ds)
          | '-' :: ds => ((-1 : Int), ds)
          | ds => ((1 : Int), ds)
        let (eds, rest3) := takeDigits ds
        if eds = [] || rest3 ≠ [] then none
        else some (mant, flen, esign * (digitsToNat eds : Int))
      else none

/-- `2 ^ 1024`, the first magnitude beyond the binary64 range, written as a
literal so that concrete parses evaluate by kernel reduction. -/
def doubleLimit : Nat :=
  179769313486231590772930519078902473361797697894230657273430081157732675805500963132708477322407536021120113879871393357658789768814416622492847430639474124377767893424865485276302219601246094119453082952085005768838150682342462881473913110540827237163350510684586298239947245938479716304835356329624224137216

/-- Exact truncation toward zero of `m / 10^flen * 10^e` for `m : Nat`. -/
def truncMagnitude (m : Nat) (flen : Nat) (e : Int) : Nat :=
  if e ≥ (flen : Int) then m * 10 ^ (e - flen).toNat
  else m / 10 ^ ((flen : Int) - e).toNat

/-- `int(float(s.strip()))` with `_format_key`'s stripping.  `inf`-valued
parses give `OverflowError` (`int(float("inf"))`), `nan` gives `ValueError`
(`int(float("nan"))`), a magnitude at or beyond `2^1024` overflows the
double format and also parses to infinity.  (Round-to-nearest effects of
the binary double format on extreme or over-precise decimal literals are
idealised: values are evaluated exactly.) -/
def pyIntFloat (s : List Char) : NumParse :=
  let t := stripWs s
  let (neg, body) :=
    match t with
    | '+' :: tl => (false, tl)
    | '-' :: tl => (true, tl)
    | _ => (false, t)
  let low := lowerStr body
  if low = "inf".data || low = "infinity".data then .overflowErr
  else if low = "nan".data then .valueErr
  else
    match parseDecimal low with
    | none => .valueErr
    | some (m, flen, e) =>
      if m * 10 ^ (max e 0).toNat ≥ doubleLimit * 10 ^ (flen + (max (-e) 0).toNat) then
        .overflowErr
      else
        let mag := truncMagnitude m flen e
        .ok (if neg then -(mag : Int) else (mag : Int))

/-- `_format_key(key_raw, mode_raw)` (build_tamil_metadata.py lines 132-148,
build_english_metadata.py lines 58-76; both have the same semantics).
`Except.error` models an uncaught `OverflowError` escaping the function. -/
def _format_key (keyRaw modeRaw : List Char) : Except Unit (Option (List Char)) :=
  match pyIntFloat keyRaw with
  | .overflowErr => .error ()
  | .valueErr => .ok none
  | .ok k =>
    if k = -1 || k < 0 || 12 ≤ k then .ok none
    else
      let name := (KEY_NAMES.get? k.toNat).getD []
      match pyIntFloat modeRaw with
      | .overflowErr => .error ()
      | .valueErr => .ok (some name)
      | .ok m =>
        if m = 1 then .ok (some (name ++ (' ' :: "major".data)))
        else if m = 0 then .ok (some (name ++ (' ' :: "minor".data)))
        else .ok (some name)

end BuildMeta

namespace BuildTamil

open PyStr BuildMeta

/-- `_normalize_title` of build_tamil_metadata.py (lines 97-100): strip, then
collapse whitespace runs to single spaces. -/
def _normalize_title (value : List Char) : List Char :=
  collapseWs (stripWs value)

/-- The quote characters of `_QUOTE_CHARS` (line 65). -/
def quoteChars : List Char := ['"', '\'', '“', '”']

/-- Consume `word` case-insensitively from the head of `s`. -/
def dropCI : List Char → List Char → Option (List Char)
  | [], s => some s
  | _ :: _, [] => none
  | w :: ws, c :: cs =>
    if Char.toLower c = Char.toLower w then dropCI ws cs else none

/-- The lazy group of `\(From\s+(Q)(?P<movie>.+?)\1\)`: consume the shortest
nonempty newline-free prefix followed by the same quote and `)`.  `accRev`
holds the (reversed) consumed content. -/
def lazyCloseGo (q : Char) (accRev : List Char) : List Char → Option (List Char)
  | [] => none
  | c :: cs =>
    if accRev ≠ [] && c = q && (match cs with | ')' :: _ => true | _ => false) then
      some accRev.reverse
    else if c = '\n' then none
    else lazyCloseGo q (c :: accRev) cs

/-- Match `_FROM_PATTERNS[0]` anchored at the head of `s`; returns the
`movie` group. -/
def pat1At (s : List Char) : Option (List Char) :=
  match s with
  | '(' :: r1 =>
    match dropCI "from".data r1 with
    | none => none
    | some r2 =>
      match r2 with
      | c :: cs =>
        if isSpace c then
          match lstripP isSpace cs with
          | q :: r4 => if quoteChars.contains q then lazyCloseGo q [] r4 else none
          | [] => none
        else none
      | [] => none
  | _ => none

/-- Match `_FROM_PATTERNS[1]` (`\(From\s+(?P<movie>[^)]+)\)`) anchored at the
head of `s`; returns the group.  The greedy `\s+` yields the run back one
character when the run is directly followed by `)`. -/
def pat2At (s : List Char) : Option (List Char) :=
  match s with
  | '(' :: r1 =>
    match dropCI "from".data r1 with
    | none => none
    | some r2 =>
      match r2 with
      | c :: cs =>
        if isSpace c then
          let after := lstripP isSpace cs
          let grp := after.takeWhile (· ≠ ')')
          if after.contains ')' then
            if grp ≠ [] then some grp
            else
              -- `after` begins with `)`: the group must borrow the last
              -- whitespace character, which needs a run of length ≥ 2
              match (c :: cs).takeWhile isSpace with
              | _ :: w :: ws => some [((w :: ws).getLast (by simp))]
              | _ => none
          else none
        else none
      | [] => none
  | _ => none

def searchPat1 : List Char → Option (List Char)
  | [] => none
  | c :: cs =>
    match pat1At (c :: cs) with
    | some g => some g
    | none => searchPat1 cs

def searchPat2 : List Char → Option (List Char)
  | [] => none
  | c :: cs =>
    match pat2At (c :: cs) with
    | some g => some g
    | none => searchPat2 cs

/-- `_extract_movie_from_text` (lines 103-112).  The first pattern that
matches returns immediately (even when the normalized group is empty, in
which case the function returns `None` without trying later patterns). -/
def _extract_movie_from_text (text : List Char) : Option (List Char) :=
  let t := stripWs text
  if t = [] then none
  else
    match searchPat1 t with
    | some g => let m := _normalize_title g; if m = [] then none else some m
    | none =>
      match searchPat2 t with
      | some g => let m := _normalize_title g; if m = [] then none else some m
      | none => none

/-- `_COMPILATION_HINTS` (lines 77-94). -/
def COMPILATION_HINTS : List (List Char) :=
  ["hits".data, "best of".data, "mix".data, "playback".data, "love".data,
   "melodies".data, "vol.".data, "volume".data, "level".data, "chill".data,
   "mass".data, "singer special".data, "trending".data, "radio".data,
   "top".data, "dance".data]

/-- `_is_compilation_album` (lines 115-117). -/
def _is_compilation_album (album : List Char) : Bool :=
  COMPILATION_HINTS.any (fun hint => containsSub hint (lowerStr album))

def OMPS : List Char := "(original motion picture soundtrack)".data

/-- Match `_SOUNDTRACK_STRIP_PATTERNS[0]` (`\s*\(Original Motion Picture
Soundtrack\)\s*`) at the head of `s`; returns the rest after the match. -/
def stripPat1At (s : List Char) : Option (List Char) :=
  match dropCI OMPS (lstripP isSpace s) with
  | none => none
  | some r => some (lstripP isSpace r)

/-- Global substitution of `stripPat1At` matches by a single space, scanning
left to right and continuing after each match.  Every match consumes at
least the literal, so `s.length` steps of fuel suffice. -/
def subStrip1Go : Nat → List Char → List Char
  | 0, s => s
  | fuel + 1, s =>
    match s with
    | [] => []
    | c :: cs =>
      match stripPat1At (c :: cs) with
      | some rest => ' ' :: subStrip1Go fuel rest
      | none => c :: subStrip1Go fuel cs

def subStrip1 (s : List Char) : List Char := subStrip1Go (s.length + 1) s

/-- Match `_SOUNDTRACK_STRIP_PATTERNS[1]` (`...\)\s*-\s*Tamil\s*$`) from the
head of `s` through the end of the string. -/
def stripPat2At (s : List Char) : Bool :=
  match dropCI OMPS (lstripP isSpace s) with
  | none => false
  | some r2 =>
    match lstripP isSpace r2 with
    | '-' :: r4 =>
      match dropCI "tamil".data (lstripP isSpace r4) with
      | none => false
      | some r6 => r6.all isSpace
    | _ => false

def subStrip2 : List Char → List Char
  | [] => []
  | c :: cs => if stripPat2At (c :: cs) then [' '] else c :: subStrip2 cs

/-- Match `_SOUNDTRACK_STRIP_PATTERNS[2]`
(`\s*-\s*Original Motion Picture Soundtrack\s*$`). -/
def stripPat3At (s : List Char) : Bool :=
  match lstripP isSpace s with
  | '-' :: r2 =>
    match dropCI "original motion picture soundtrack".data (lstripP isSpace r2) with
    | none => false
    | some r4 => r4.all isSpace
  | _ => false

def subStrip3 : List Char → List Char
  | [] => []
  | c :: cs => if stripPat3At (c :: cs) then [' '] else c :: subStrip3 cs

/-- `_clean_album_to_movie` (lines 120-129). -/
def _clean_album_to_movie (album : List Char) : Option (List Char) :=
  let a := _normalize_title album
  if a = [] then none
  else if _is_compilation_album a then none
  else
    let a := subStrip3 (subStrip2 (subStrip1 a))
    let a := _normalize_title a
    if a = [] then none else some a

/-- The heuristic chain of `main` (line 335):
`_extract_movie_from_text(title) or _extract_movie_from_text(album) or
_clean_album_to_movie(album)`; later steps run only when the earlier ones
produce a falsy value. -/
def inferMovie (title album : List Char) : Option (List Char) :=
  match _extract_movie_from_text title with
  | some m => some m
  | none =>
    match _extract_movie_from_text album with
    | some m => some m
    | none => _clean_album_to_movie album

/-- `_canon_person` (lines 193-197). -/
def _canon_person (value : List Char) : List Char :=
  let v := lowerStr (stripWs value)
  let v := collapseWs v
  let v := (v.filter (· ≠ '.')).map (fun c => if c = '_' then ' ' else c)
  stripWs v

def KNOWN_MUSIC_DIRECTORS : List (List Char × List Char) :=
  [("a r rahman".data, "A. R. Rahman".data),
   ("ar rahman".data, "A. R. Rahman".data),
   ("a.r. rahman".data, "A. R. Rahman".data),
   ("ilaiyaraaja".data, "Ilaiyaraaja".data),
   ("ilayaraja".data, "Ilaiyaraaja".data),
   ("harris jayaraj".data, "Harris Jayaraj".data),
   ("yuvan shankar raja".data, "Yuvan Shankar Raja".data),
   ("anirudh ravichander".data, "Anirudh Ravichander".data),
   ("anirudh".data, "Anirudh Ravichander".data),
   ("g v prakash".data, "G. V. Prakash".data),
   ("g. v. prakash".data, "G. V. Prakash".data),
   ("g v prakash kumar".data, "G. V. Prakash".data),
   ("d imman".data, "D. Imman".data),
   ("d. imman".data, "D. Imman".data),
   ("santhosh narayanan".data, "Santhosh Narayanan".data),
   ("vijay antony".data, "Vijay Antony".data),
   ("ghibran".data, "Ghibran".data),
   ("hiphop tamizha".data, "Hiphop Tamizha".data),
   ("sam c s".data, "Sam C.S.".data),
   ("sam c.s.".data, "Sam C.S.".data),
   ("govind vasantha".data, "Govind Vasantha".data),
   ("justin prabhakaran".data, "Justin Prabhakaran".data),
   ("darbuka siva".data, "Darbuka Siva".data)]

def KNOWN_LYRICISTS : List (List Char) :=
  ["vairamuthu".data, "thamarai".data, "na. muthukumar".data,
   "na.muthukumar".data, "madhan karky".data, "madhan karki".data,
   "vivek".data, "gangai amaran".data, "uma devi".data, "vaali".data,
   "pa. vijay".data, "karky".data]

/-- `_guess_music_director` (lines 200-205). -/
def _guess_music_director : List (List Char) → Option (List Char)
  | [] => none
  | a :: rest =>
    match (KNOWN_MUSIC_DIRECTORS.find? (fun p => p.1 == _canon_person a)).map (·.2) with
    | some v => some v
    | none => _guess_music_director rest

/-- `_guess_singers` (lines 208-226). -/
def _guess_singers (artists : List (List Char)) (md : Option (List Char)) :
    List (List Char) :=
  let lyr := KNOWN_LYRICISTS.map _canon_person
  let keep := (artists.filter (fun a => !lyr.contains (_canon_person a))).map stripWs
  if keep = [] then []
  else
    match md with
    | some m =>
      let mdCanon := _canon_person m
      let others := keep.filter (fun a => _canon_person a ≠ mdCanon)
      if others = [] then keep else others
    | none => keep

/-- `_split_people` (lines 50-54): split on `[;,|/]+` runs, strip pieces,
drop empties.  (Splitting at each delimiter character yields the same final
list, since the extra pieces are empty and dropped.) -/
def _split_people (value : List Char) : List (List Char) :=
  let v := stripWs value
  if v = [] then []
  else
    let pieces := v.splitOnP (fun c => c = ';' || c = ',' || c = '|' || c = '/')
    (pieces.map stripWs).filter (· ≠ [])

/-- `_parse_artists_field` (lines 57-62). -/
def _parse_artists_field (artists : List Char) : List (List Char) :=
  let a := stripWs artists
  if a = [] then []
  else
    let parts := ((a.splitOnP (· = ';')).map stripWs).filter (· ≠ [])
    if parts = [] then [a] else parts

/-- `_parse_track_id` (lines 33-37). -/
def _parse_track_id (uri : List Char) : Option (List Char) :=
  let u := stripWs uri
  if startsWith "spotify:track:".data u then
    let seg := (u.reverse.takeWhile (· ≠ ':')).reverse
    if seg = [] then none else some seg
  else none

/-- `_join_url` (lines 229-232). -/
def _join_url (root : List Char) (parts : List (List Char)) : List Char :=
  let r := rstripP (· = '/') root
  let clean := (parts.filter (· ≠ [])).map
    (fun p => (stripIn ['/'] p).map (fun c => if c = '\\' then '/' else c))
  (List.intersperse "/".data (r :: clean)).flatten

/-- `_select_preview_base` (lines 40-47), with on-disk existence of
`<name>.mp3` supplied as a predicate. -/
def _select_preview_base (ex : List Char → Bool) : List (List Char) → Option (List Char)
  | [] => none
  | c :: cs =>
    if c = [] then _select_preview_base ex cs
    else if ex c then some c
    else _select_preview_base ex cs

end BuildTamil

namespace BuildTamil

open PyStr BuildMeta

/-- One parsed CSV row of the Tamil Spotify export (the fields `main` reads). -/
structure TamilRow where
  trackUri : List Char
  titleRaw : List Char
  albumRaw : List Char
  artistsRaw : List Char
  keyRaw : List Char
  modeRaw : List Char
deriving DecidableEq

/-- One override row of `_load_overrides` (lines 235-246): every column is a
stripped string, `[]` (empty) meaning absent or blank, which is falsy at all
use sites. -/
structure TamilOverride where
  skip : List Char := []
  id : List Char := []
  title : List Char := []
  movie : List Char := []
  album : List Char := []
  musicDirector : List Char := []
  singers : List Char := []
  hero : List Char := []
  heroine : List Char := []
deriving DecidableEq

/-- A published song record (the dict built at lines 378-390). -/
structure TamilItem where
  id : List Char
  title : List Char
  movie : Option (List Char)
  album : Option (List Char)
  musicDirector : Option (List Char)
  singers : List (List Char)
  hero : Option (List Char)
  heroine : Option (List Char)
  key : Option (List Char)
  audio : List (Nat × List Char)
  trackUri : List Char
deriving DecidableEq

/-- Run environment: overrides table, filesystem existence and CLI options. -/
structure TamilEnv where
  overrides : List Char → Option TamilOverride
  previewExists : List Char → Bool
  clipExists : List Char → Nat → Bool
  durations : List Nat
  requireAllDurations : Bool
  urlRoot : List Char
  language : List Char

/-- `used_ids.add(x)` on the Python set, modelled as a duplicate-free list. -/
def addUsed (used : List (List Char)) (x : List Char) : List (List Char) :=
  if used.contains x then used else x :: used

/-- The collision `while` loop (lines 341-344): keep trying
`_slugify(f"{base_id}-{counter}")` while the current candidate is used.
Python loops unboundedly; `fuel` bounds the number of iterations modelled,
with `none` for a run of the loop that has not terminated within `fuel`
steps. -/
def assignWhile (base : List Char) (used : List (List Char)) :
    Nat → Nat → List Char → Option (List Char)
  | 0, _, uid => if used.contains uid then none else some uid
  | fuel + 1, counter, uid =>
    if used.contains uid then
      assignWhile base used fuel (counter + 1)
        (_slugify (base ++ '-' :: (Nat.repr counter).data))
    else some uid

/-- Identifier assignment of `main` (lines 336-344): the slug of the title,
then on collision one candidate with a disambiguating suffix (track-id
fragment, else slug of movie-or-album, else `dup`), then numeric
suffixes. -/
def assignUniqueId (fuel : Nat) (base : List Char) (trackId : Option (List Char))
    (movie : Option (List Char)) (album : List Char) (used : List (List Char)) :
    Option (List Char) :=
  let u0 := base
  let u1 :=
    if used.contains u0 then
      let suffix :=
        match trackId with
        | some t => t.take 8
        | none =>
          let s := _slugify (match movie with
            | some m => if m = [] then album else m
            | none => album)
          if s = [] then "dup".data else s
      _slugify (base ++ '-' :: suffix)
    else u0
  assignWhile base used fuel 2 u1

/-- Identifier assignment of `build_english_metadata.py` `main` (lines
172-180): same loop, with `_slugify(f"{artists}-{title}")` as the base and
`dup` as the only non-track-id suffix. -/
def assignUniqueIdEn (fuel : Nat) (base : List Char) (trackId : Option (List Char))
    (used : List (List Char)) : Option (List Char) :=
  let u1 :=
    if used.contains base then
      let suffix := match trackId with | some t => t.take 8 | none => "dup".data
      _slugify (base ++ '-' :: suffix)
    else base
  assignWhile base used fuel 2 u1

def clipName (d : Nat) : List Char :=
  "clip_".data ++ (Nat.repr d).data ++ "s.mp3".data

/-- Truthiness of the `skip` override column (line 394). -/
def skipTruthy (v : List Char) : Bool :=
  ["1".data, "true".data, "yes".data, "y".data].contains (lowerStr v)

/-- Override application (lines 392-411): every non-empty column replaces
the corresponding heuristic field; `singers` is re-split. -/
def applyOverride (ov : TamilOverride) (item : TamilItem) : TamilItem :=
  { item with
    id := if ov.id ≠ [] then ov.id else item.id
    title := if ov.title ≠ [] then ov.title else item.title
    movie := if ov.movie ≠ [] then some ov.movie else item.movie
    album := if ov.album ≠ [] then some ov.album else item.album
    musicDirector := if ov.musicDirector ≠ [] then some ov.musicDirector else item.musicDirector
    singers := if ov.singers ≠ [] then _split_people ov.singers else item.singers
    hero := if ov.hero ≠ [] then some ov.hero else item.hero
    heroine := if ov.heroine ≠ [] then some ov.heroine else item.heroine }

/-- One iteration of the row loop of `main` (lines 323-414).  `some st`
with `st` unchanged models a `continue`; `none` models a run that aborts
(uncaught `OverflowError`) or an id-assignment loop that has not terminated
within `fuel` steps. -/
def stepTamil (env : TamilEnv) (fuel : Nat)
    (used : List (List Char)) (items : List TamilItem) (row : TamilRow) :
    Option (List (List Char) × List TamilItem) :=
  let st := (used, items)
  let trackUri := stripWs row.trackUri
  let title := _normalize_title row.titleRaw
  let album := _normalize_title row.albumRaw
  let artistsRaw := stripWs row.artistsRaw
  if trackUri = [] || title = [] || artistsRaw = [] then some st
  else
    let trackId := _parse_track_id row.trackUri
    let artistsList := _parse_artists_field artistsRaw
    let base := _safe_filename (artistsRaw ++ " - ".data ++ title)
    let movie := inferMovie title album
    let baseId := _slugify title
    match assignUniqueId fuel baseId trackId movie album used with
    | none => none
    | some uniqueId =>
      let candidates := uniqueId ::
        ((match trackId with | some t => [t] | none => []) ++
          (if uniqueId = baseId then [base] else []))
      match _select_preview_base env.previewExists candidates with
      | none => some st
      | some previewBase =>
        let audio := (env.durations.filter (fun d => env.clipExists previewBase d)).map
          (fun d => (d, _join_url env.urlRoot
            [env.language, "clips".data, previewBase, clipName d]))
        if env.requireAllDurations && audio.length ≠ env.durations.length then some st
        else if audio = [] then some st
        else
          let musicDirector := _guess_music_director artistsList
          let singers := _guess_singers artistsList musicDirector
          match _format_key row.keyRaw row.modeRaw with
          | .error _ => none
          | .ok keyName =>
            let item : TamilItem :=
              { id := uniqueId, title := title, movie := movie
                album := if (match movie with | none => true | some m => m = []) then some album else none
                musicDirector := musicDirector, singers := singers
                hero := none, heroine := none, key := keyName
                audio := audio, trackUri := trackUri }
            match env.overrides trackUri with
            | none => some (addUsed used item.id, items ++ [item])
            | some ov =>
              if skipTruthy ov.skip then some st
              else
                let item := applyOverride ov item
                some (addUsed used item.id, items ++ [item])

def runTamilGo (env : TamilEnv) (fuel : Nat) :
    List TamilRow → List (List Char) × List TamilItem →
    Option (List (List Char) × List TamilItem)
  | [], st => some st
  | r :: rs, st =>
    match stepTamil env fuel st.1 st.2 r with
    | none => none
    | some st' => runTamilGo env fuel rs st'

/-- A full run of the metadata builder over the input rows: the published
output list. -/
def runTamil (env : TamilEnv) (fuel : Nat) (rows : List TamilRow) :
    Option (List TamilItem) :=
  (runTamilGo env fuel rows ([], [])).map (·.2)

end BuildTamil

namespace CleanMeta

open PyStr

/-- Word characters for the `\b` assertion. -/
def isWordChar (c : Char) : Bool :=
  ('A' ≤ c && c ≤ 'Z') || ('a' ≤ c && c ≤ 'z') || ('0' ≤ c && c ≤ '9') || c = '_'

/-- A word boundary after a word character: the next character is not a word
character (or the string ends). -/
def wordBoundary : List Char → Bool
  | [] => true
  | c :: _ => !isWordChar c

/-- Consume `word` case-insensitively. -/
def dropCI : List Char → List Char → Option (List Char)
  | [], s => some s
  | _ :: _, [] => none
  | w :: ws, c :: cs =>
    if Char.toLower c = Char.toLower w then dropCI ws cs else none

/-- `$`-semantics of an unanchored pattern tail `...$` (no `MULTILINE`):
given the text that `.*`/`.+` must span, return the part left unconsumed —
`[]`, or a final newline the `$` sits in front of — or `none` when an
interior newline makes the tail unmatchable. -/
def dollarRest (rest : List Char) : Option (List Char) :=
  if rest.contains '\n' then
    if rest.getLast? == some '\n' && !(rest.dropLast.contains '\n') then some ['\n']
    else none
  else some []

/-- `.+$` on `content`: at least one character must be consumed. -/
def coreSplit (content : List Char) : Option (List Char) :=
  match dollarRest content with
  | some leftover => if leftover.length < content.length then some leftover else none
  | none => none

/-- Match `FROM_TITLE_PATTERNS[0]` (`\s*[\(\[]\s*from\b[^)\]]*[\)\]]`,
clean_metadata_with_llm.py line 23) at the head of `s`; returns the rest
after the match. -/
def fromPat1At (s : List Char) : Option (List Char) :=
  let r1 := lstripP isSpace s
  match r1 with
  | c :: r2 =>
    if c = '(' || c = '[' then
      match dropCI "from".data (lstripP isSpace r2) with
      | none => none
      | some r4 =>
        if wordBoundary r4 then
          let body := r4.takeWhile (fun c => !(c = ')' || c = ']'))
          let rest := r4.drop body.length
          match rest with
          | _ :: tl => some tl
          | [] => none
        else none
    else none
  | [] => none

def subFrom1Go : Nat → List Char → List Char
  | 0, s => s
  | _ + 1, [] => []
  | fuel + 1, c :: cs =>
    match fromPat1At (c :: cs) with
    | some rest => subFrom1Go fuel rest
    | none => c :: subFrom1Go fuel cs

def subFrom1 (s : List Char) : List Char := subFrom1Go (s.length + 1) s

/-- Match `FROM_TITLE_PATTERNS[1]` (`\s*-\s*from\b.*$`, line 24) from the
head of `s` to the end; returns the part after the `$`. -/
def fromPat2At (s : List Char) : Option (List Char) :=
  match lstripP isSpace s with
  | '-' :: r2 =>
    match dropCI "from".data (lstripP isSpace r2) with
    | some r4 => if wordBoundary r4 then dollarRest r4 else none
    | none => none
  | _ => none

def subFrom2 : List Char → List Char
  | [] => []
  | c :: cs =>
    match fromPat2At (c :: cs) with
    | some leftover => leftover
    | none => c :: subFrom2 cs

/-- The backtracking of a greedy `\s+` followed by `.+$`: `avail` holds the
whitespace-run characters that may be yielded back to `.+` (nearest
first). -/
def pat3Back : List Char → List Char → Option (List Char)
  | [], content => coreSplit content
  | a :: as, content =>
    match coreSplit content with
    | some l => some l
    | none => pat3Back as (a :: content)

/-- Match `FROM_TITLE_PATTERNS[2]` (`\s+from\b\s+\"?.+\"?$`, line 25). -/
def fromPat3At (s : List Char) : Option (List Char) :=
  match s with
  | c :: _ =>
    if isSpace c then
      match dropCI "from".data (lstripP isSpace s) with
      | none => none
      | some r4 =>
        match r4 with
        | c2 :: _ =>
          if isSpace c2 then
            let run := r4.takeWhile isSpace
            let t := r4.drop run.length
            pat3Back (run.drop 1).reverse t
          else none
        | [] => none
    else none
  | [] => none

def subFrom3 : List Char → List Char
  | [] => []
  | c :: cs =>
    match fromPat3At (c :: cs) with
    | some leftover => leftover
    | none => c :: subFrom3 cs

/-- The `(?:feat\.?|ft\.?|featuring)` alternation followed by the mandatory
`\s+`: the branches are mutually exclusive, so the backtracking order does
not matter.  Returns the rest starting at the whitespace. -/
def dropFeatWord (s : List Char) : Option (List Char) :=
  let tryWord := fun (w : List Char) =>
    match dropCI w s with
    | some r => (match r with
      | c :: _ => if isSpace c then some r else none
      | [] => none)
    | none => none
  match tryWord "feat.".data with
  | some r => some r
  | none =>
    match tryWord "feat".data with
    | some r => some r
    | none =>
      match tryWord "ft.".data with
      | some r => some r
      | none =>
        match tryWord "ft".data with
        | some r => some r
        | none => tryWord "featuring".data

/-- Match `ENGLISH_FEAT_PATTERNS[0]`
(`\s*[\(\[]\s*(?:feat\.?|ft\.?|featuring)\s+[^)\]]*[\)\]]`, line 29). -/
def featPat1At (s : List Char) : Option (List Char) :=
  match lstripP isSpace s with
  | c :: r2 =>
    if c = '(' || c = '[' then
      match dropFeatWord (lstripP isSpace r2) with
      | none => none
      | some r4 =>
        let body := r4.takeWhile (fun c => !(c = ')' || c = ']'))
        match r4.drop body.length with
        | _ :: tl => some tl
        | [] => none
    else none
  | [] => none

def subFeat1Go : Nat → List Char → List Char
  | 0, s => s
  | _ + 1, [] => []
  | fuel + 1, c :: cs =>
    match featPat1At (c :: cs) with
    | some rest => subFeat1Go fuel rest
    | none => c :: subFeat1Go fuel cs

def subFeat1 (s : List Char) : List Char := subFeat1Go (s.length + 1) s

/-- Match `ENGLISH_FEAT_PATTERNS[1]`
(`\s*-\s*(?:feat\.?|ft\.?|featuring)\s+.*$`, line 30). -/
def featPat2At (s : List Char) : Option (List Char) :=
  match lstripP isSpace s with
  | '-' :: r2 =>
    match dropFeatWord (lstripP isSpace r2) with
    | none => none
    | some r4 => dollarRest (lstripP isSpace r4)
  | _ => none

def subFeat2 : List Char → List Char
  | [] => []
  | c :: cs =>
    match featPat2At (c :: cs) with
    | some leftover => leftover
    | none => c :: subFeat2 cs

/-- Match `ENGLISH_FEAT_PATTERNS[2]`
(`\s+(?:feat\.?|ft\.?|featuring)\s+.*$`, line 31). -/
def featPat3At (s : List Char) : Option (List Char) :=
  match s with
  | c :: _ =>
    if isSpace c then
      match dropFeatWord (lstripP isSpace s) with
      | none => none
      | some r4 => dollarRest (lstripP isSpace r4)
    else none
  | [] => none

def subFeat3 : List Char → List Char
  | [] => []
  | c :: cs =>
    match featPat3At (c :: cs) with
    | some leftover => leftover
    | none => c :: subFeat3 cs

/-- `_normalize_title(title, language)` of clean_metadata_with_llm.py
(lines 39-50) and clean_metadata_album_with_llm.py (lines 39-50, textually
identical): strip; remove all `FROM_TITLE_PATTERNS` matches, then for
English the `ENGLISH_FEAT_PATTERNS` matches; collapse whitespace and strip;
strip spaces and hyphens. -/
def _normalize_title (language : List Char) (title : List Char) : List Char :=
  let t := stripWs title
  if t = [] then t
  else
    let t := subFrom3 (subFrom2 (subFrom1 t))
    let t := if language = "english".data then subFeat3 (subFeat2 (subFeat1 t)) else t
    let t := stripWs (collapseWs t)
    stripIn [' ', '-'] t

end CleanMeta

namespace CleanMeta

open PyStr

/-- JSON values as handled by `json.loads`/`json.dumps` in the cleaning
scripts (numbers restricted to integers; the records carry none others). -/
inductive Json where
  | null
  | bool (b : Bool)
  | num (n : Int)
  | str (s : List Char)
  | arr (xs : List Json)
  | obj (fields : List (List Char × Json))

def hexDigit (n : Nat) : Char :=
  if n < 10 then Char.ofNat ('0'.toNat + n) else Char.ofNat ('a'.toNat + (n - 10))

/-- `json.dumps` escaping of one character (`ensure_ascii=False`). -/
def escapeChar (c : Char) : List Char :=
  if c = '"' then ['\\', '"']
  else if c = '\\' then ['\\', '\\']
  else if c = '\n' then ['\\', 'n']
  else if c = '\t' then ['\\', 't']
  else if c = '\r' then ['\\', 'r']
  else if c = '\x08' then ['\\', 'b']
  else if c = '\x0c' then ['\\', 'f']
  else if c.toNat < 32 then
    ['\\', 'u', '0', '0', hexDigit (c.toNat / 16), hexDigit (c.toNat % 16)]
  else [c]

def dumpsStr (s : List Char) : List Char :=
  '"' :: ((s.map escapeChar).flatten ++ ['"'])

/-- Code-point lexicographic comparison of Python strings. -/
def lexLt : List Char → List Char → Bool
  | [], [] => false
  | [], _ :: _ => true
  | _ :: _, [] => false
  | a :: as, b :: bs =>
    if a.toNat < b.toNat then true
    else if b.toNat < a.toNat then false
    else lexLt as bs

def lexLe (a b : List Char) : Bool := !(lexLt b a)

/-- Key order used by `json.dumps(..., sort_keys=True)`. -/
def entryLe (a b : List Char × List Char) : Bool := lexLe a.1 b.1

mutual
/-- `json.dumps(v, sort_keys=True, ensure_ascii=False)` (default separators
`", "` and `": "`); object entries are serialised in sorted key order (the
values are rendered first, then the entries sorted by key — equivalent,
since the sort compares keys only and is stable). -/
def dumps : Json → List Char
  | .null => "null".data
  | .bool b => if b then "true".data else "false".data
  | .num n => (toString n).data
  | .str s => dumpsStr s
  | .arr xs => '[' :: ((List.intersperse ", ".data (dumpsList xs)).flatten ++ [']'])
  | .obj fs =>
    '\x7b' :: ((List.intersperse ", ".data
        ((List.insertionSort (fun a b => entryLe a b = true) (dumpsEntries fs)).map
          (fun p => dumpsStr p.1 ++ ": ".data ++ p.2))).flatten ++ ['\x7d'])

def dumpsList : List Json → List (List Char)
  | [] => []
  | x :: xs => dumps x :: dumpsList xs

def dumpsEntries : List (List Char × Json) → List (List Char × List Char)
  | [] => []
  | (k, v) :: fs => (k, dumps v) :: dumpsEntries fs
end

/-- `str(value)` for the scalar JSON values (containers are rendered via
their serialisation; the records' fields hold only scalars and string
lists, so that case does not arise in the data the scripts handle). -/
def pyStr : Json → List Char
  | .null => "None".data
  | .bool b => if b then "True".data else "False".data
  | .num n => (toString n).data
  | .str s => s
  | v => dumps v

/-- Python truthiness `value or ""` followed by a string-method call:
`some s` gives the string the method acts on, `none` models the
`AttributeError`/`TypeError` raised on a truthy non-string. -/
def pyStrOrEmpty : Option Json → Option (List Char)
  | none => some []
  | some .null => some []
  | some (.bool false) => some []
  | some (.bool true) => none
  | some (.num n) => if n = 0 then some [] else none
  | some (.str s) => some s
  | some (.arr xs) => match xs with | [] => some [] | _ => none
  | some (.obj fs) => match fs with | [] => some [] | _ => none

/-- `d.get(k)` on an association-list dictionary. -/
def dictGet {α : Type} [DecidableEq κ] (d : List (κ × α)) (k : κ) : Option α :=
  match d with
  | [] => none
  | (k', v) :: rest => if k' = k then some v else dictGet rest k

/-- `d[k] = v`: replace in place, else append. -/
def dictSet {α : Type} [DecidableEq κ] : List (κ × α) → κ → α → List (κ × α)
  | [], k, v => [(k, v)]
  | (k', v') :: rest, k, v =>
    if k' = k then (k, v) :: rest else (k', v') :: dictSet rest k v

/-- `_input_hash(payload)` (clean_metadata_with_llm.py lines 207-209 and
clean_metadata_album_with_llm.py lines 84-86): the digest of the canonical
key-sorted serialisation.  The `hashlib.sha1(...).hexdigest()` digest
function itself is a parameter: every cache property proved below holds
for an arbitrary digest. -/
def _input_hash (sha1 : List Char → List Char) (payload : Json) : List Char :=
  sha1 (dumps payload)

/-- A main-cache entry `{"input_hash": ..., "result": ...}`. -/
structure CacheEntry where
  inputHash : List Char
  result : Json

/-- The cache-backed fetch of `main` (lines 439-453): on a stored entry
whose hash matches, return the stored result with no external call;
otherwise perform the call (whose failure propagates, leaving the cache
unwritten) and replace the entry.  The `Nat` counts external calls. -/
def fetchWithCache (sha1 : List Char → List Char) (call : Json → Except Unit Json)
    (cache : List (List Char × CacheEntry)) (key : List Char) (payload : Json) :
    Except Unit (Json × List (List Char × CacheEntry) × Nat) :=
  let h := _input_hash sha1 payload
  match dictGet cache key with
  | some e =>
    if e.inputHash = h then .ok (e.result, cache, 0)
    else
      match call payload with
      | .error err => .error err
      | .ok r => .ok (r, dictSet cache key ⟨h, r⟩, 1)
  | none =>
    match call payload with
    | .error err => .error err
    | .ok r => .ok (r, dictSet cache key ⟨h, r⟩, 1)

/-- Extracted infobox fields of a film page. -/
structure WikiResult where
  pageTitle : List Char
  summary : Option (List Char)
  starring : Option (List (List Char))
  musicBy : Option (List Char)
deriving DecidableEq

/-- The external collaborators of `_fetch_wikipedia_data`: the three
network requests (modelled as fallible calls; `Except.error` is a raised
exception), and the pure post-processing helpers `_extract_infobox_field`
and `_split_people`, which never touch the cache and are treated as
parameters. -/
structure WikiApi where
  searchHits : List Char → Except Unit (List (List Char))
  pageWikitext : List Char → Except Unit (Option (List Char))
  pageExtract : List Char → Except Unit (Option (List Char))
  infobox : List Char → List (List Char) → Option (List Char)
  people : List Char → List (List Char)

/-- `_wiki_search_title` (lines 103-117): three queries in order, first
non-empty result list wins; a raised request error propagates. -/
def _wiki_search_title (api : WikiApi) (movie : List Char) :
    Except Unit (Option (List Char)) :=
  match api.searchHits (movie ++ " Tamil film".data) with
  | .error e => .error e
  | .ok (t :: _) => .ok (some t)
  | .ok [] =>
    match api.searchHits (movie ++ " film".data) with
    | .error e => .error e
    | .ok (t :: _) => .ok (some t)
    | .ok [] =>
      match api.searchHits movie with
      | .error e => .error e
      | .ok (t :: _) => .ok (some t)
      | .ok [] => .ok none

/-- `_fetch_wikipedia_data` (lines 145-204) acting on the `_wiki`
sub-namespace of the cache.  A search with no results stores `None` (a
successful negative result); a raised request error propagates before any
entry for the movie's key is written, so the error branch carries no cache.
(The only in-place mutation preceding a raise in the source is
`cache.setdefault("_wiki", {})`, which creates an empty sub-dict and never
an entry.) -/
def _fetch_wikipedia_data (api : WikiApi)
    (wikiCache : List (List Char × Option WikiResult)) (movie : List Char) :
    Except Unit (Option WikiResult × List (List Char × Option WikiResult)) :=
  let key := stripWs (lowerStr movie)
  if key = [] then .ok (none, wikiCache)
  else
    match dictGet wikiCache key with
    | some v => .ok (v, wikiCache)
    | none =>
      match _wiki_search_title api movie with
      | .error e => .error e
      | .ok none => .ok (none, dictSet wikiCache key none)
      | .ok (some title) =>
        match api.pageWikitext title with
        | .error e => .error e
        | .ok wikitext =>
          match api.pageExtract title with
          | .error e => .error e
          | .ok summary =>
            let starring :=
              match wikitext with
              | some wt => api.infobox wt ["starring".data]
              | none => none
            let musicBy :=
              match wikitext with
              | some wt => api.infobox wt ["music".data, "music by".data, "music_by".data]
              | none => none
            let result : WikiResult :=
              { pageTitle := title, summary := summary
                starring :=
                  match starring with
                  | some s => if s = [] then none else some (api.people s)
                  | none => none
                musicBy := musicBy }
            .ok (some result, dictSet wikiCache key (some result))

/-- The caller of the Wikipedia lookup in `main` (lines 424-431): a raised
lookup error is caught, the item's `wiki_data` stays `None` and processing
continues with the cache as it was before the call. -/
def wikiEnrichStep (api : WikiApi)
    (wikiCache : List (List Char × Option WikiResult)) (movie : Option (List Char)) :
    Option WikiResult × List (List Char × Option WikiResult) :=
  match movie with
  | none => (none, wikiCache)
  | some m =>
    if m = [] then (none, wikiCache)
    else
      match _fetch_wikipedia_data api wikiCache m with
      | .ok (r, c') => (r, c')
      | .error _ => (none, wikiCache)

/-- `_normalize_singers` (clean_metadata_with_llm.py lines 53-69). -/
def _normalize_singers (v : Option Json) : List (List Char) :=
  let parts : List (List Char) :=
    match v with
    | none => []
    | some .null => []
    | some (.str s) => s.splitOnP (fun c => c = ';' || c = ',')
    | some (.arr entries) =>
      entries.foldr
        (fun e acc =>
          match e with
          | .null => acc
          | .str s =>
            if s.any (fun c => c = ';' || c = ',') then
              s.splitOnP (fun c => c = ';' || c = ',') ++ acc
            else s :: acc
          | other => pyStr other :: acc)
        []
    | some other => [pyStr other]
  (parts.map stripWs).filter (· ≠ [])

/-- The overwrite loop of `_apply_result` (lines 273-276): walk the result
entries in order; a key the record does not have is skipped, a key it has
is overwritten in place. -/
def mergeFields (item result : List (List Char × Json)) : List (List Char × Json) :=
  result.foldl
    (fun acc kv => if (dictGet acc kv.1).isSome then dictSet acc kv.1 kv.2 else acc) item

/-- `_apply_result(item, result, language)` (lines 271-279): copy the
record, overwrite only the keys the record already has, then re-normalise
the title and re-split the singers.  `none` models the `AttributeError`
raised when the merged title is a truthy non-string. -/
def _apply_result (language : List Char) (item result : List (List Char × Json)) :
    Option (List (List Char × Json)) :=
  let cleaned := mergeFields item result
  match pyStrOrEmpty (dictGet cleaned "title".data) with
  | none => none
  | some t =>
    let cleaned := dictSet cleaned "title".data (.str (_normalize_title language t))
    let cleaned := dictSet cleaned "singers".data
      (.arr ((_normalize_singers (dictGet cleaned "singers".data)).map .str))
    some cleaned

end CleanMeta

namespace PoolRec

open PyStr CleanMeta

abbrev Record := List (List Char × Json)

/-- `_normalize_singers` of filter_new_english_songs.py (lines 18-27) and
merge_english_jsons.py (lines 18-27; the two files carry the same text):
`None` → `[]`, a string stays one part, a list is mapped through `str`,
anything else is `str`-ed; parts are stripped and empties dropped. -/
def _normalize_singers (v : Option Json) : List (List Char) :=
  let parts : List (List Char) :=
    match v with
    | none => []
    | some .null => []
    | some (.str s) => [s]
    | some (.arr xs) => xs.map pyStr
    | some other => [pyStr other]
  (parts.map stripWs).filter (· ≠ [])

/-- `_title_singers_key` (filter lines 30-34, merge lines 30-34):
`f"{title}::{singers_key}"` with the trimmed lowercased title and the
sorted, lowercased, comma-joined singers.  `none` models the raised error
on a truthy non-string title field. -/
def _title_singers_key (item : Record) (titleField singersField : List Char) :
    Option (List Char) :=
  match pyStrOrEmpty (dictGet item titleField) with
  | none => none
  | some t =>
    let title := lowerStr (stripWs t)
    let singers := _normalize_singers (dictGet item singersField)
    let sortedSingers :=
      List.insertionSort (fun a b => lexLe a b = true) ((singers.filter (· ≠ [])).map lowerStr)
    some (title ++ "::".data ++ (List.intersperse ",".data sortedSingers).flatten)

end PoolRec

namespace FilterNew

open PyStr CleanMeta PoolRec

/-- `keys.add(...)` on the Python set, as a duplicate-free list (only
membership is consumed). -/
def addKey (keys : List (List Char)) (k : List Char) : List (List Char) :=
  if keys.contains k then keys else keys ++ [k]

/-- Lines 47-50 of `_build_base_keys`: add the item's `id::` key when the
mode asks for it and the trimmed id is non-empty. -/
def addIdKey (mode idField : List Char) (it : Record) (keys : List (List Char)) :
    Option (List (List Char)) :=
  if mode = "id".data ∨ mode = "both".data then
    match pyStrOrEmpty (dictGet it idField) with
    | none => none
    | some sid0 =>
      let sid := stripWs sid0
      some (if sid ≠ [] then addKey keys ("id::".data ++ sid) else keys)
  else some keys

/-- Lines 51-54 of `_build_base_keys`: add the item's `title_singers::` key
when the mode asks for it and the composite key is non-trivial. -/
def addTsKey (mode titleField singersField : List Char) (it : Record)
    (keys : List (List Char)) : Option (List (List Char)) :=
  if mode = "title_singers".data ∨ mode = "both".data then
    match _title_singers_key it titleField singersField with
    | none => none
    | some k =>
      some (if k ≠ "::".data then addKey keys ("title_singers::".data ++ k) else keys)
  else some keys

/-- The loop body of `_build_base_keys` (lines 46-54). -/
def buildBaseKeysGo (mode idField titleField singersField : List Char) :
    List Record → List (List Char) → Option (List (List Char))
  | [], keys => some keys
  | it :: rest, keys =>
    match addIdKey mode idField it keys with
    | none => none
    | some keys1 =>
      match addTsKey mode titleField singersField it keys1 with
      | none => none
      | some keys2 => buildBaseKeysGo mode idField titleField singersField rest keys2

/-- `_build_base_keys` (lines 37-55). -/
def _build_base_keys (items : List Record) (mode idField titleField singersField : List Char) :
    Option (List (List Char)) :=
  buildBaseKeysGo mode idField titleField singersField items []

/-- The `title_singers` arm of `_is_duplicate` (lines 71-74). -/
def dupTsCheck (item : Record) (baseKeys : List (List Char))
    (mode titleField singersField : List Char) : Option Bool :=
  if mode = "title_singers".data ∨ mode = "both".data then
    match _title_singers_key item titleField singersField with
    | none => none
    | some k =>
      if k ≠ "::".data ∧ baseKeys.contains ("title_singers::".data ++ k) then some true
      else some false
  else some false

/-- `_is_duplicate` (lines 58-75): the `id` key is consulted first, then
the `title_singers` key; either membership suffices. -/
def _is_duplicate (item : Record) (baseKeys : List (List Char))
    (mode idField titleField singersField : List Char) : Option Bool :=
  if mode = "id".data ∨ mode = "both".data then
    match pyStrOrEmpty (dictGet item idField) with
    | none => none
    | some sid0 =>
      let sid := stripWs sid0
      if sid ≠ [] ∧ baseKeys.contains ("id::".data ++ sid) then some true
      else dupTsCheck item baseKeys mode titleField singersField
  else dupTsCheck item baseKeys mode titleField singersField

/-- The partition loop of `main` (lines 153-166): incoming order is kept in
both output lists. -/
def classifyGo (baseKeys : List (List Char)) (mode idField titleField singersField : List Char) :
    List Record → List Record × List Record → Option (List Record × List Record)
  | [], acc => some acc
  | it :: rest, acc =>
    match _is_duplicate it baseKeys mode idField titleField singersField with
    | none => none
    | some true =>
      classifyGo baseKeys mode idField titleField singersField rest (acc.1, acc.2 ++ [it])
    | some false =>
      classifyGo baseKeys mode idField titleField singersField rest (acc.1 ++ [it], acc.2)

/-- Classification of an incoming pool against a base pool:
`(non_duplicates, duplicates)`. -/
def classify (base incoming : List Record) (mode idField titleField singersField : List Char) :
    Option (List Record × List Record) :=
  match _build_base_keys base mode idField titleField singersField with
  | none => none
  | some keys => classifyGo keys mode idField titleField singersField incoming ([], [])

end FilterNew

namespace MergeJsons

open PyStr CleanMeta PoolRec

abbrev MKey := List Char × List Char

/-- `_merge_key` (merge_english_jsons.py lines 37-48): `("id", id)` for a
non-empty trimmed id, else `("title_singers", key)` for a non-trivial
title+singers key, else `None`.  The outer `none` is a raised error. -/
def _merge_key (item : Record) (idField titleField singersField : List Char) :
    Option (Option MKey) :=
  match pyStrOrEmpty (dictGet item idField) with
  | none => none
  | some sid0 =>
    let sid := stripWs sid0
    if sid ≠ [] then some (some ("id".data, sid))
    else
      match _title_singers_key item titleField singersField with
      | none => none
      | some k =>
        if k ≠ "::".data then some (some ("title_singers".data, k)) else some none

structure MergeSt where
  merged : List Record
  index : List (Option MKey × Int)
  replaced : Nat
  added : Nat

/-- The base loop body of `_merge` (lines 82-95).  A keyless record sets
`index[None] = -1` and is appended; a new key is indexed at the append
position; a colliding key keeps the first record unless `prefer_second`
replaces it in place. -/
def mergeBaseStep (preferSecond : Bool) (idField titleField singersField : List Char)
    (st : MergeSt) (item : Record) : Option MergeSt :=
  match _merge_key item idField titleField singersField with
  | none => none
  | some none =>
    some { st with merged := st.merged ++ [item], index := dictSet st.index none (-1) }
  | some (some k) =>
    match dictGet st.index (some k) with
    | none =>
      some { st with index := dictSet st.index (some k) (st.merged.length : Int)
                     merged := st.merged ++ [item] }
    | some i =>
      if preferSecond then
        some { st with merged := st.merged.set i.toNat item, replaced := st.replaced + 1 }
      else some st

/-- The incoming loop body of `_merge` (lines 97-115). -/
def mergeIncomingStep (preferSecond : Bool) (idField titleField singersField : List Char)
    (st : MergeSt) (item : Record) : Option MergeSt :=
  match _merge_key item idField titleField singersField with
  | none => none
  | some none =>
    some { st with merged := st.merged ++ [item], added := st.added + 1 }
  | some (some k) =>
    match dictGet st.index (some k) with
    | some i =>
      if preferSecond then
        some { st with merged := st.merged.set i.toNat item, replaced := st.replaced + 1 }
      else some st
    | none =>
      some { st with index := dictSet st.index (some k) (st.merged.length : Int)
                     merged := st.merged ++ [item], added := st.added + 1 }

def mergeGo (step : MergeSt → Record → Option MergeSt) :
    List Record → MergeSt → Option MergeSt
  | [], st => some st
  | it :: rest, st =>
    match step st it with
    | none => none
    | some st' => mergeGo step rest st'

/-- `_merge(base, incoming, prefer_second, ...)` (lines 68-117): returns
`(merged, added, replaced)`. -/
def _merge (base incoming : List Record) (preferSecond : Bool)
    (idField titleField singersField : List Char) :
    Option (List Record × Nat × Nat) :=
  match mergeGo (mergeBaseStep preferSecond idField titleField singersField) base
      ⟨[], [], 0, 0⟩ with
  | none => none
  | some st1 =>
    match mergeGo (mergeIncomingStep preferSecond idField titleField singersField)
        incoming st1 with
    | none => none
    | some st2 => some (st2.merged, st2.added, st2.replaced)

/-- A record whose merge key cannot be computed (Python `None`). -/
def noKey (idField titleField singersField : List Char) (r : Record) : Bool :=
  decide (_merge_key r idField titleField singersField = some none)

/-- Invariant of the merge state: every indexed position is a valid
position of `merged` holding a record with a computable key (so in-place
replacements never land on a keyless record). -/
def ValidIndex (idField titleField singersField : List Char) (st : MergeSt) : Prop :=
  ∀ p ∈ st.index, ∀ k, p.1 = some k →
    0 ≤ p.2 ∧ p.2.toNat < st.merged.length ∧
      noKey idField titleField singersField (st.merged.getD p.2.toNat []) = false

end MergeJsons

namespace CleanMeta

open PyStr

/-- Does any position of `s` start a `FROM_TITLE_PATTERNS[0]` match? -/
def hasFrom1 : List Char → Bool
  | [] => false
  | c :: cs => (fromPat1At (c :: cs)).isSome || hasFrom1 cs

def hasFrom2 : List Char → Bool
  | [] => false
  | c :: cs => (fromPat2At (c :: cs)).isSome || hasFrom2 cs

def hasFrom3 : List Char → Bool
  | [] => false
  | c :: cs => (fromPat3At (c :: cs)).isSome || hasFrom3 cs

def hasFeat1 : List Char → Bool
  | [] => false
  | c :: cs => (featPat1At (c :: cs)).isSome || hasFeat1 cs

def hasFeat2 : List Char → Bool
  | [] => false
  | c :: cs => (featPat2At (c :: cs)).isSome || hasFeat2 cs

def hasFeat3 : List Char → Bool
  | [] => false
  | c :: cs => (featPat3At (c :: cs)).isSome || hasFeat3 cs

/-- No occurrence of any title pattern applicable to `language` remains in
`s`: one further substitution pass leaves `s` unchanged. -/
def noResidual (language s : List Char) : Bool :=
  !hasFrom1 s && !hasFrom2 s && !hasFrom3 s &&
    (if language = "english".data then !hasFeat1 s && !hasFeat2 s && !hasFeat3 s else true)

end CleanMeta

namespace Examples

open PyStr BuildMeta BuildTamil CleanMeta PoolRec

/-- An 80-character slug: the longest value `_slugify` can return. -/
def base80 : List Char := List.replicate 80 'a'

/-- Overrides table mapping two distinct track URIs to the same id. -/
def ovSameId : List Char → Option TamilOverride := fun uri =>
  if uri = "spotify:track:aaa111".data then some { id := "x".data }
  else if uri = "spotify:track:bbb222".data then some { id := "x".data }
  else none

/-- Environment in which previews `alpha.mp3` / `beta.mp3` and their
30-second clips exist. -/
def envDupOv : TamilEnv :=
  { overrides := ovSameId
    previewExists := fun n => n = "alpha".data || n = "beta".data
    clipExists := fun _ d => d = 30
    durations := [30]
    requireAllDurations := false
    urlRoot := "/audio".data
    language := "tamil".data }

def rowsDupOv : List TamilRow :=
  [{ trackUri := "spotify:track:aaa111".data, titleRaw := "Alpha".data
     albumRaw := "".data, artistsRaw := "Singer One".data
     keyRaw := "0".data, modeRaw := "1".data },
   { trackUri := "spotify:track:bbb222".data, titleRaw := "Beta".data
     albumRaw := "".data, artistsRaw := "Singer Two".data
     keyRaw := "".data, modeRaw := "".data }]

/-- The same environment with no overrides at all. -/
def envNoOv : TamilEnv :=
  { overrides := fun _ => none
    previewExists := fun n => n = "alpha".data
    clipExists := fun _ d => d = 30
    durations := [30]
    requireAllDurations := false
    urlRoot := "/audio".data
    language := "tamil".data }

def rowAlpha : TamilRow :=
  { trackUri := "spotify:track:aaa111".data, titleRaw := "Alpha".data
    albumRaw := "".data, artistsRaw := "Singer One".data
    keyRaw := "0".data, modeRaw := "1".data }

/-- The record `envNoOv` publishes for `rowAlpha`. -/
def itemAlpha : TamilItem :=
  { id := "alpha".data, title := "Alpha".data, movie := none
    album := some []
    musicDirector := none, singers := ["Singer One".data]
    hero := none, heroine := none, key := some "C major".data
    audio := [(30, "/audio/tamil/clips/alpha/clip_30s.mp3".data)]
    trackUri := "spotify:track:aaa111".data }

/-- Base pool record `{id:"x1", title:"Song", singers:["A"]}`. -/
def recX1 : Record :=
  [("id".data, .str "x1".data), ("title".data, .str "Song".data),
   ("singers".data, .arr [.str "A".data])]

/-- Incoming record with the base id `x1` but different title/singers. -/
def recX1In : Record :=
  [("id".data, .str "x1".data), ("title".data, .str "Different".data),
   ("singers".data, .arr [.str "Q".data])]

/-- Incoming record `x2` whose title+singers key collides with `x1`'s. -/
def recX2 : Record :=
  [("id".data, .str "x2".data), ("title".data, .str "song".data),
   ("singers".data, .arr [.str "a".data])]

/-- Incoming record `x3` matching no base key. -/
def recX3 : Record :=
  [("id".data, .str "x3".data), ("title".data, .str "Other".data),
   ("singers".data, .arr [.str "B".data])]

/-- Merge-policy example records `{id:"a", v:1}` and `{id:"a", v:2}`. -/
def recA1 : Record := [("id".data, .str "a".data), ("v".data, .num 1)]

def recA2 : Record := [("id".data, .str "a".data), ("v".data, .num 2)]

/-- A record with no id and empty title/singers: its merge key cannot be
computed. -/
def recNoKey : Record := [("v".data, .num 7)]

/-- A digest standing in for `sha1(...).hexdigest()` in concrete runs. -/
def shaId : List Char → List Char := fun s => s

/-- An external call that always succeeds with a fixed result. -/
def callOk : Json → Except Unit Json := fun _ => .ok (.str "r".data)

/-- An external call that always raises. -/
def callRaise : Json → Except Unit Json := fun _ => .error ()

def payAB : Json := .obj [("a".data, .num 1), ("b".data, .str "x".data)]

def payBA : Json := .obj [("b".data, .str "x".data), ("a".data, .num 1)]

/-- A Wikipedia API whose very first search request raises. -/
def apiSearchRaise : WikiApi :=
  { searchHits := fun _ => .error ()
    pageWikitext := fun _ => .ok none
    pageExtract := fun _ => .ok none
    infobox := fun _ _ => none
    people := fun _ => [] }

/-- A Wikipedia API that finds a page title but whose page-content request
raises. -/
def apiPageRaise : WikiApi :=
  { searchHits := fun _ => .ok ["Big Movie".data]
    pageWikitext := fun _ => .error ()
    pageExtract := fun _ => .ok none
    infobox := fun _ _ => none
    people := fun _ => [] }

/-- `_apply_result` example: a record with a from-suffixed title, a
delimited singers string and a null movie. -/
def recApply : Record :=
  [("id".data, .str "i".data), ("title".data, .str "T (From \"M\")".data),
   ("singers".data, .str "A; B".data), ("movie".data, .null)]

/-- A model result mentioning an unknown key `extra` and a key `hero` the
record does not have. -/
def resApply : Record :=
  [("movie".data, .str "M".data), ("extra".data, .str "zz".data),
   ("hero".data, .str "H".data)]

end Examples

namespace PyStr

/-- Every whitespace character of `s` is the plain space, the shape
`re.sub(r"\s+", " ", ...)` leaves behind. -/
def wsSingle (s : List Char) : Bool :=
  s.all (fun c => !isSpace c || c = ' ')

/-- No two adjacent whitespace characters. -/
def noAdjWs : List Char → Bool
  | [] => true
  | [_] => true
  | a :: b :: rest => !(isSpace a && isSpace b) && noAdjWs (b :: rest)

end PyStr

/-! ## Theorems -/

open PyStr BuildMeta BuildTamil

/-- C4 (counterexample): the claim promises that any out-of-range or
unparseable key yields `None`, never an error; but the raw key `"inf"`
parses to an infinite float, `int(float("inf"))` raises `OverflowError`,
and `_format_key` catches only `ValueError`, so the call errors. -/
theorem c4_format_key_error_on_inf :
    _format_key "inf".data "1".data = .error () := by
  rfl

/-- C4 (amended): for every pair of raw key/mode strings, a key parsing to
0..11 maps to the fixed pitch-class table entry, with suffix ` major` when
the mode parses to 1, ` minor` when it parses to 0 and no suffix for any
other or unparseable mode; key `-1`, an out-of-range numeric key or an
unparseable key yields `None` — and no error is raised except when the key
or mode text parses to an infinite float, where the int conversion
overflows.  In particular key 0/mode 1 → `C major`, key `-1` → `None`, key
11/mode 0 → `B minor`. -/
theorem c4_format_key_amended (keyRaw modeRaw : List Char) :
    (pyIntFloat keyRaw = .valueErr → _format_key keyRaw modeRaw = .ok none) ∧
    (∀ k : Int, pyIntFloat keyRaw = .ok k → (k = -1 ∨ k < 0 ∨ 12 ≤ k) →
      _format_key keyRaw modeRaw = .ok none) ∧
    (∀ k : Int, pyIntFloat keyRaw = .ok k → 0 ≤ k → k < 12 →
      (pyIntFloat modeRaw = .ok 1 →
        _format_key keyRaw modeRaw =
          .ok (some ((KEY_NAMES.get? k.toNat).getD [] ++ (' ' :: "major".data)))) ∧
      (pyIntFloat modeRaw = .ok 0 →
        _format_key keyRaw modeRaw =
          .ok (some ((KEY_NAMES.get? k.toNat).getD [] ++ (' ' :: "minor".data)))) ∧
      (∀ m : Int, pyIntFloat modeRaw = .ok m → m ≠ 0 → m ≠ 1 →
        _format_key keyRaw modeRaw = .ok (some ((KEY_NAMES.get? k.toNat).getD []))) ∧
      (pyIntFloat modeRaw = .valueErr →
        _format_key keyRaw modeRaw = .ok (some ((KEY_NAMES.get? k.toNat).getD []))) ∧
      (pyIntFloat modeRaw = .overflowErr → _format_key keyRaw modeRaw = .error ())) ∧
    (pyIntFloat keyRaw = .overflowErr → _format_key keyRaw modeRaw = .error ()) ∧
    _format_key "0".data "1".data = .ok (some "C major".data) ∧
    _format_key "-1".data "1".data = .ok none ∧
    _format_key "11".data "0".data = .ok (some "B minor".data) := by
  refine ⟨?_, ?_, ?_, ?_, by rfl, by rfl, by rfl⟩
  · intro h
    simp [_format_key, h]
  · intro k hk hrange
    have : (k = -1 || k < 0 || 12 ≤ k) = true := by
      rcases hrange with h | h | h <;> simp [h]
    simp [_format_key, hk, this]
  · intro k hk h0 h12
    have hcond : (k = -1 || k < 0 || 12 ≤ k) = false := by
      simp
      omega
    refine ⟨?_, ?_, ?_, ?_, ?_⟩ <;> intro m
    · simp [_format_key, hk, hcond, m]
    · simp [_format_key, hk, hcond, m]
    · intro hm hm0 hm1
      simp [_format_key, hk, hcond, hm, hm0, hm1]
    · simp [_format_key, hk, hcond, m]
    · simp [_format_key, hk, hcond, m]
  · intro h
    simp [_format_key, h]

/-- C4 (witness): the amended theorem applied at key `"0"`, mode `"1"`. -/
theorem c4_format_key_amended_witness :
    pyIntFloat "0".data = .ok 0 ∧ pyIntFloat "1".data = .ok 1 ∧
    _format_key "0".data "1".data =
      .ok (some ((KEY_NAMES.get? (0 : Int).toNat).getD [] ++ (' ' :: "major".data))) :=
  ⟨by rfl, by rfl,
    ((c4_format_key_amended "0".data "1".data).2.2.1 0 (by rfl) (by decide)
      (by decide)).1 (by rfl)⟩

/-- C6: the inferred movie is the result of the first successful step of
the ordered chain — the quoted/unquoted `(From ...)` patterns on the title,
the same patterns on the album, then album cleanup, where a
compilation-hint match forces no movie; later steps are not attempted after
a success.  In particular `Song Name (From "Big Movie")` yields
`Big Movie` for any album; album
`Big Movie (Original Motion Picture Soundtrack)` with no title match yields
`Big Movie`; album `Tamil Hits Vol. 3` yields no movie. -/
theorem c6_movie_chain (title album : List Char) :
    (∀ m, _extract_movie_from_text title = some m → inferMovie title album = some m) ∧
    (_extract_movie_from_text title = none →
      ∀ m, _extract_movie_from_text album = some m → inferMovie title album = some m) ∧
    (_extract_movie_from_text title = none → _extract_movie_from_text album = none →
      inferMovie title album = _clean_album_to_movie album) ∧
    (_is_compilation_album (BuildTamil._normalize_title album) = true →
      _clean_album_to_movie album = none) ∧
    inferMovie ("Song Name (From \"Big Movie\")".data) album = some "Big Movie".data ∧
    inferMovie "Song Name".data "Big Movie (Original Motion Picture Soundtrack)".data =
      some "Big Movie".data ∧
    inferMovie "Song Name".data "Tamil Hits Vol. 3".data = none := by
  refine ⟨?_, ?_, ?_, ?_, ?_, by decide, by decide⟩
  · intro m h
    simp [inferMovie, h]
  · intro h1 m h2
    simp [inferMovie, h1, h2]
  · intro h1 h2
    simp [inferMovie, h1, h2]
  · intro h
    simp [_clean_album_to_movie, h]
  · have h : _extract_movie_from_text ("Song Name (From \"Big Movie\")".data) =
        some "Big Movie".data := by decide
    simp [inferMovie, h]

/-- C6 (witness): the chain theorem applied where only the album-cleanup
step succeeds. -/
theorem c6_movie_chain_witness :
    _extract_movie_from_text "Song Name".data = none ∧
    _extract_movie_from_text "Big Movie (Original Motion Picture Soundtrack)".data = none ∧
    inferMovie "Song Name".data "Big Movie (Original Motion Picture Soundtrack)".data =
      _clean_album_to_movie "Big Movie (Original Motion Picture Soundtrack)".data :=
  ⟨by decide, by decide,
    (c6_movie_chain "Song Name".data
        "Big Movie (Original Motion Picture Soundtrack)".data).2.2.1
      (by decide) (by decide)⟩

open CleanMeta PoolRec Examples

theorem addKey_subset {ks : List (List Char)} {k x : List Char}
    (h : x ∈ FilterNew.addKey ks k) : x ∈ ks ∨ x = k := by
  unfold FilterNew.addKey at h
  split at h
  · exact Or.inl h
  · rcases List.mem_append.mp h with h | h
    · exact Or.inl h
    · exact Or.inr (List.mem_singleton.mp h)

/-- Every key the base-key builder emits is an `id::` key with a non-empty
id or a `title_singers::` key with a non-trivial composite key. -/
theorem addIdKey_mem {mode idF : List Char} {it : Record}
    {keys out : List (List Char)} (h : FilterNew.addIdKey mode idF it keys = some out) :
    ∀ k ∈ out, k ∈ keys ∨ ∃ sid, sid ≠ [] ∧ k = "id::".data ++ sid := by
  unfold FilterNew.addIdKey at h
  split at h
  · split at h
    · exact absurd h (by simp)
    · rename_i sid0 hid
      have h' := Option.some.inj h
      intro k hk
      rw [← h'] at hk
      split at hk
      · rename_i hsid
        rcases addKey_subset hk with hk | hk
        · exact Or.inl hk
        · exact Or.inr ⟨_, hsid, hk⟩
      · exact Or.inl hk
  · have h' := Option.some.inj h
    intro k hk
    rw [← h'] at hk
    exact Or.inl hk

theorem addTsKey_mem {mode tF sF : List Char} {it : Record}
    {keys out : List (List Char)} (h : FilterNew.addTsKey mode tF sF it keys = some out) :
    ∀ k ∈ out, k ∈ keys ∨ ∃ t, t ≠ "::".data ∧ k = "title_singers::".data ++ t := by
  unfold FilterNew.addTsKey at h
  split at h
  · split at h
    · exact absurd h (by simp)
    · rename_i tk hts
      have h' := Option.some.inj h
      intro k hk
      rw [← h'] at hk
      split at hk
      · rename_i htk
        rcases addKey_subset hk with hk | hk
        · exact Or.inl hk
        · exact Or.inr ⟨_, htk, hk⟩
      · exact Or.inl hk
  · have h' := Option.some.inj h
    intro k hk
    rw [← h'] at hk
    exact Or.inl hk

/-- Every key the base-key builder emits is an `id::` key with a non-empty
id or a `title_singers::` key with a non-trivial composite key. -/
theorem buildBaseKeysGo_shape (mode idF tF sF : List Char) (items : List Record)
    (acc keys : List (List Char))
    (hacc : ∀ k ∈ acc, (∃ sid, sid ≠ [] ∧ k = "id::".data ++ sid) ∨
      (∃ t, t ≠ "::".data ∧ k = "title_singers::".data ++ t))
    (h : FilterNew.buildBaseKeysGo mode idF tF sF items acc = some keys) :
    ∀ k ∈ keys, (∃ sid, sid ≠ [] ∧ k = "id::".data ++ sid) ∨
      (∃ t, t ≠ "::".data ∧ k = "title_singers::".data ++ t) := by
  induction items generalizing acc with
  | nil =>
    simp only [FilterNew.buildBaseKeysGo, Option.some.injEq] at h
    exact h ▸ hacc
  | cons it rest ih =>
    simp only [FilterNew.buildBaseKeysGo] at h
    split at h
    · exact absurd h (by simp)
    · rename_i keys1 heq1
      split at h
      · exact absurd h (by simp)
      · rename_i keys2 heq2
        refine ih _ ?_ h
        intro k hk
        rcases addTsKey_mem heq2 k hk with hk1 | hk1
        · rcases addIdKey_mem heq1 k hk1 with hk2 | hk2
          · exact hacc k hk2
          · exact Or.inl hk2
        · exact Or.inr hk1

/-- Neither the bare `id::` key nor the trivial `title_singers::::` key is
ever in a built base-key set. -/
theorem build_base_keys_no_trivial {base : List Record} {mode idF tF sF : List Char}
    {keys : List (List Char)}
    (h : FilterNew._build_base_keys base mode idF tF sF = some keys) :
    "id::".data ∉ keys ∧ ("title_singers::".data ++ "::".data) ∉ keys := by
  have hshape := buildBaseKeysGo_shape mode idF tF sF base [] keys (by simp) h
  constructor
  · intro hmem
    rcases hshape _ hmem with ⟨sid, hne, heq⟩ | ⟨t, hne, heq⟩
    · have hl := congrArg List.length heq
      simp at hl
      exact hne hl
    · have h2 : some 'i' = some 't' := congrArg List.head? heq
      exact absurd (Option.some.inj h2) (by decide)
  · intro hmem
    rcases hshape _ hmem with ⟨sid, hne, heq⟩ | ⟨t, hne, heq⟩
    · have h2 : some 't' = some 'i' := congrArg List.head? heq
      exact absurd (Option.some.inj h2) (by decide)
    · exact hne (List.append_cancel_left heq).symm

/-- C7: under mode `both`, an incoming record is a duplicate iff its
trimmed id key or its composite title+singers key appears in the built
base-key set — pure set membership, with the id key consulted first.  On
base `[{id:"x1", title:"Song", singers:["A"]}]` and incoming `x1`, `x2`
(title `song`, singers `["a"]`), `x3` (title `Other`, singers `["B"]`),
the duplicate list is `[x1, x2]` and the new list is `[x3]`. -/
theorem c7_duplicate_mode_both (base : List Record) (baseKeys : List (List Char))
    (item : Record) (sid0 tk : List Char)
    (hkeys : FilterNew._build_base_keys base "both".data "id".data "title".data
      "singers".data = some baseKeys)
    (hid : pyStrOrEmpty (dictGet item "id".data) = some sid0)
    (hts : _title_singers_key item "title".data "singers".data = some tk) :
    FilterNew._is_duplicate item baseKeys "both".data "id".data "title".data
        "singers".data =
      some (baseKeys.contains ("id::".data ++ stripWs sid0) ||
        baseKeys.contains ("title_singers::".data ++ tk)) ∧
    FilterNew.classify [recX1] [recX1In, recX2, recX3]
        "both".data "id".data "title".data "singers".data =
      some ([recX3], [recX1In, recX2]) := by
  refine ⟨?_, by rfl⟩
  have hno := build_base_keys_no_trivial hkeys
  have hcontains : ∀ k, k ∉ baseKeys → baseKeys.contains k = false := by
    intro k hk
    exact Bool.eq_false_iff.mpr (fun hc => hk (List.mem_of_elem_eq_true hc))
  unfold FilterNew._is_duplicate
  rw [if_pos (Or.inr rfl), hid]
  dsimp only
  by_cases hsid : stripWs sid0 = []
  · rw [if_neg (by simp [hsid])]
    rw [show ("id::".data ++ stripWs sid0) = "id::".data by rw [hsid]; simp]
    rw [hcontains _ hno.1, Bool.false_or]
    unfold FilterNew.dupTsCheck
    rw [if_pos (Or.inr rfl), hts]
    dsimp only
    by_cases htk : tk = "::".data
    · rw [if_neg (by simp [htk])]
      rw [htk, hcontains _ hno.2]
    · by_cases hcts : baseKeys.contains ("title_singers::".data ++ tk) = true
      · rw [if_pos ⟨htk, hcts⟩, hcts]
      · rw [if_neg (fun hh => hcts hh.2), Bool.eq_false_iff.mpr hcts]
  · by_cases hcid : baseKeys.contains ("id::".data ++ stripWs sid0) = true
    · rw [if_pos ⟨hsid, hcid⟩, hcid]
      rfl
    · rw [if_neg (fun hh => hcid hh.2), Bool.eq_false_iff.mpr hcid, Bool.false_or]
      unfold FilterNew.dupTsCheck
      rw [if_pos (Or.inr rfl), hts]
      dsimp only
      by_cases htk : tk = "::".data
      · rw [if_neg (by simp [htk])]
        rw [htk, hcontains _ hno.2]
      · by_cases hcts : baseKeys.contains ("title_singers::".data ++ tk) = true
        · rw [if_pos ⟨htk, hcts⟩, hcts]
        · rw [if_neg (fun hh => hcts hh.2), Bool.eq_false_iff.mpr hcts]

/-- C7 (witness): the classification theorem applied to `x2` against the
base `[x1]`: a duplicate purely through the title+singers key. -/
theorem c7_duplicate_mode_both_witness :
    FilterNew._is_duplicate recX2
        ["id::x1".data, ("title_singers::".data ++ "song::a".data)]
        "both".data "id".data "title".data "singers".data = some true :=
  have h := (c7_duplicate_mode_both [recX1]
    ["id::x1".data, ("title_singers::".data ++ "song::a".data)]
    recX2 "x2".data "song::a".data (by rfl) (by rfl) (by rfl)).1
  by rw [h]; rfl

theorem dictGet_mem {κ α : Type} [DecidableEq κ] {d : List (κ × α)} {k : κ} {v : α}
    (h : dictGet d k = some v) : (k, v) ∈ d := by
  induction d with
  | nil => simp [dictGet] at h
  | cons p rest ih =>
    obtain ⟨k', v'⟩ := p
    simp only [dictGet] at h
    split at h
    · rename_i hkk
      subst hkk
      simp [Option.some.inj h]
    · simp [ih h]

theorem dictSet_mem {κ α : Type} [DecidableEq κ] {d : List (κ × α)} {k : κ} {v : α}
    {p : κ × α} (h : p ∈ dictSet d k v) : p ∈ d ∨ p = (k, v) := by
  induction d with
  | nil => simp [dictSet] at h; exact Or.inr h
  | cons q rest ih =>
    obtain ⟨k', v'⟩ := q
    simp only [dictSet] at h
    split at h
    · rcases List.mem_cons.mp h with h | h
      · exact Or.inr h
      · exact Or.inl (List.mem_cons_of_mem _ h)
    · rcases List.mem_cons.mp h with h | h
      · exact Or.inl (h ▸ List.mem_cons_self _ _)
      · rcases ih h with h | h
        · exact Or.inl (List.mem_cons_of_mem _ h)
        · exact Or.inr h

theorem getD_append_left {α : Type} (l l' : List α) (n : Nat) (d : α)
    (h : n < l.length) : (l ++ l').getD n d = l.getD n d := by
  rw [List.getD_eq_getElem?_getD, List.getD_eq_getElem?_getD, List.getElem?_append,
    if_pos h]

theorem getD_concat_length {α : Type} (l : List α) (x : α) (d : α) :
    (l ++ [x]).getD l.length d = x := by
  rw [List.getD_eq_getElem?_getD, List.getElem?_concat_length]
  rfl

theorem getD_set_self {α : Type} (l : List α) (n : Nat) (a d : α) (h : n < l.length) :
    (l.set n a).getD n d = a := by
  rw [List.getD_eq_getElem?_getD, List.getElem?_set_self h]
  rfl

theorem getD_set_ne {α : Type} (l : List α) (n m : Nat) (a d : α) (h : n ≠ m) :
    (l.set n a).getD m d = l.getD m d := by
  rw [List.getD_eq_getElem?_getD, List.getD_eq_getElem?_getD, List.getElem?_set_ne h]

theorem filter_set_of_false {α : Type} (p : α → Bool) (l : List α) (n : Nat) (a d : α)
    (hn : n < l.length) (hold : p (l.getD n d) = false) (hnew : p a = false) :
    (l.set n a).filter p = l.filter p := by
  induction l generalizing n with
  | nil => simp at hn
  | cons x xs ih =>
    cases n with
    | zero =>
      simp only [List.getD_cons_zero] at hold
      simp [List.set, List.filter, hold, hnew]
    | succ m =>
      simp only [List.getD_cons_succ] at hold
      have hm : m < xs.length := Nat.lt_of_succ_lt_succ hn
      simp only [List.set, List.filter]
      rw [ih m hm hold]

theorem mergeBaseStep_inv (ps : Bool) (idF tF sF : List Char)
    (st st' : MergeJsons.MergeSt) (item : Record)
    (h : MergeJsons.mergeBaseStep ps idF tF sF st item = some st')
    (hv : MergeJsons.ValidIndex idF tF sF st) :
    MergeJsons.ValidIndex idF tF sF st' ∧
    st'.merged.filter (MergeJsons.noKey idF tF sF) =
      st.merged.filter (MergeJsons.noKey idF tF sF) ++
        (if MergeJsons.noKey idF tF sF item then [item] else []) := by
  unfold MergeJsons.mergeBaseStep at h
  split at h
  · exact absurd h (by simp)
  · rename_i heq
    rw [← Option.some.inj h]
    constructor
    · intro p hp k hk
      rcases dictSet_mem hp with hp | hp
      · obtain ⟨h1, h2, h3⟩ := hv p hp k hk
        refine ⟨h1, ?_, ?_⟩
        · simp only [List.length_append, List.length_singleton]
          exact Nat.lt_succ_of_lt h2
        · rw [getD_append_left _ _ _ _ h2]
          exact h3
      · rw [hp] at hk
        exact absurd hk (by simp)
    · simp only [List.filter_append]
      have : MergeJsons.noKey idF tF sF item = true := by
        simp [MergeJsons.noKey, heq]
      simp [this, List.filter_singleton]
  · rename_i k heq
    have hnk : MergeJsons.noKey idF tF sF item = false := by
      simp [MergeJsons.noKey, heq]
    split at h
    · rename_i hidx
      rw [← Option.some.inj h]
      constructor
      · intro p hp k' hk'
        rcases dictSet_mem hp with hp | hp
        · obtain ⟨h1, h2, h3⟩ := hv p hp k' hk'
          refine ⟨h1, ?_, ?_⟩
          · simp only [List.length_append, List.length_singleton]
            exact Nat.lt_succ_of_lt h2
          · rw [getD_append_left _ _ _ _ h2]
            exact h3
        · rw [hp] at hk' ⊢
          refine ⟨Int.natCast_nonneg _, ?_, ?_⟩
          · simp [List.length_append]
          · simp only [Int.toNat_natCast]
            rw [getD_concat_length]
            exact hnk
      · simp [List.filter_append, hnk, List.filter_singleton]
    · rename_i i hidx
      split at h
      · rw [← Option.some.inj h]
        have hmem := dictGet_mem hidx
        obtain ⟨h1, h2, h3⟩ := hv _ hmem k rfl
        constructor
        · intro p hp k' hk'
          obtain ⟨g1, g2, g3⟩ := hv p hp k' hk'
          refine ⟨g1, by simpa [List.length_set] using g2, ?_⟩
          by_cases hij : i.toNat = p.2.toNat
          · rw [← hij, getD_set_self _ _ _ _ (by simpa using h2)]
            exact hnk
          · rw [getD_set_ne _ _ _ _ _ hij]
            exact g3
        · simp only []
          rw [filter_set_of_false _ _ _ _ [] h2 h3 hnk]
          simp [hnk]
      · rw [← Option.some.inj h]
        constructor
        · exact hv
        · simp [hnk]

theorem mergeIncomingStep_inv (ps : Bool) (idF tF sF : List Char)
    (st st' : MergeJsons.MergeSt) (item : Record)
    (h : MergeJsons.mergeIncomingStep ps idF tF sF st item = some st')
    (hv : MergeJsons.ValidIndex idF tF sF st) :
    MergeJsons.ValidIndex idF tF sF st' ∧
    st'.merged.filter (MergeJsons.noKey idF tF sF) =
      st.merged.filter (MergeJsons.noKey idF tF sF) ++
        (if MergeJsons.noKey idF tF sF item then [item] else []) := by
  unfold MergeJsons.mergeIncomingStep at h
  split at h
  · exact absurd h (by simp)
  · rename_i heq
    rw [← Option.some.inj h]
    constructor
    · intro p hp k hk
      obtain ⟨h1, h2, h3⟩ := hv p hp k hk
      refine ⟨h1, ?_, ?_⟩
      · simp only [List.length_append, List.length_singleton]
        exact Nat.lt_succ_of_lt h2
      · rw [getD_append_left _ _ _ _ h2]
        exact h3
    · have : MergeJsons.noKey idF tF sF item = true := by
        simp [MergeJsons.noKey, heq]
      simp [List.filter_append, this, List.filter_singleton]
  · rename_i k heq
    have hnk : MergeJsons.noKey idF tF sF item = false := by
      simp [MergeJsons.noKey, heq]
    split at h
    · rename_i i hidx
      split at h
      · rw [← Option.some.inj h]
        have hmem := dictGet_mem hidx
        obtain ⟨h1, h2, h3⟩ := hv _ hmem k rfl
        constructor
        · intro p hp k' hk'
          obtain ⟨g1, g2, g3⟩ := hv p hp k' hk'
          refine ⟨g1, by simpa [List.length_set] using g2, ?_⟩
          by_cases hij : i.toNat = p.2.toNat
          · rw [← hij, getD_set_self _ _ _ _ (by simpa using h2)]
            exact hnk
          · rw [getD_set_ne _ _ _ _ _ hij]
            exact g3
        · simp only []
          rw [filter_set_of_false _ _ _ _ [] h2 h3 hnk]
          simp [hnk]
      · rw [← Option.some.inj h]
        exact ⟨hv, by simp [hnk]⟩
    · rw [← Option.some.inj h]
      constructor
      · intro p hp k' hk'
        rcases dictSet_mem hp with hp | hp
        · obtain ⟨h1, h2, h3⟩ := hv p hp k' hk'
          refine ⟨h1, ?_, ?_⟩
          · simp only [List.length_append, List.length_singleton]
            exact Nat.lt_succ_of_lt h2
          · rw [getD_append_left _ _ _ _ h2]
            exact h3
        · rw [hp] at hk' ⊢
          refine ⟨Int.natCast_nonneg _, ?_, ?_⟩
          · simp [List.length_append]
          · simp only [Int.toNat_natCast]
            rw [getD_concat_length]
            exact hnk
      · simp [List.filter_append, hnk, List.filter_singleton]

theorem mergeGo_inv (idF tF sF : List Char) (step : MergeJsons.MergeSt → Record → Option MergeJsons.MergeSt)
    (hstep : ∀ st it st', step st it = some st' → MergeJsons.ValidIndex idF tF sF st →
      MergeJsons.ValidIndex idF tF sF st' ∧
      st'.merged.filter (MergeJsons.noKey idF tF sF) =
        st.merged.filter (MergeJsons.noKey idF tF sF) ++
          (if MergeJsons.noKey idF tF sF it then [it] else []))
    (items : List Record) (st st' : MergeJsons.MergeSt)
    (h : MergeJsons.mergeGo step items st = some st')
    (hv : MergeJsons.ValidIndex idF tF sF st) :
    MergeJsons.ValidIndex idF tF sF st' ∧
    st'.merged.filter (MergeJsons.noKey idF tF sF) =
      st.merged.filter (MergeJsons.noKey idF tF sF) ++
        items.filter (MergeJsons.noKey idF tF sF) := by
  induction items generalizing st with
  | nil =>
    simp only [MergeJsons.mergeGo, Option.some.injEq] at h
    rw [← h]
    exact ⟨hv, by simp⟩
  | cons it rest ih =>
    simp only [MergeJsons.mergeGo] at h
    split at h
    · exact absurd h (by simp)
    · rename_i st1 hst1
      obtain ⟨hv1, hf1⟩ := hstep _ _ _ hst1 hv
      obtain ⟨hv2, hf2⟩ := ih st1 h hv1
      refine ⟨hv2, ?_⟩
      rw [hf2, hf1, List.append_assoc]
      congr 1
      rw [List.filter_cons]
      split <;> simp

/-- C8: `_merge` walks base then incoming under the composite key; on a key
collision `prefer_second = false` keeps the first-seen record and `true`
replaces it in place; every record whose key cannot be computed is
appended, never deduplicated (the keyless records of the output are exactly
those of `base ++ incoming`, in order).  Merging `[{id:"a", v:1}]` with
`[{id:"a", v:2}]` keeps `v:1` under `false` and takes `v:2` under
`true`. -/
theorem c8_merge_policy (base incoming : List Record) (preferSecond : Bool)
    (idF tF sF : List Char) (merged : List Record) (a r : Nat)
    (h : MergeJsons._merge base incoming preferSecond idF tF sF = some (merged, a, r)) :
    merged.filter (MergeJsons.noKey idF tF sF) =
      (base ++ incoming).filter (MergeJsons.noKey idF tF sF) ∧
    MergeJsons._merge [recA1] [recA2] false "id".data "title".data "singers".data =
      some ([recA1], 0, 0) ∧
    MergeJsons._merge [recA1] [recA2] true "id".data "title".data "singers".data =
      some ([recA2], 0, 1) := by
  refine ⟨?_, by rfl, by rfl⟩
  unfold MergeJsons._merge at h
  split at h
  · exact absurd h (by simp)
  · rename_i st1 h1
    split at h
    · exact absurd h (by simp)
    · rename_i st2 h2
      have hv0 : MergeJsons.ValidIndex idF tF sF ⟨[], [], 0, 0⟩ := by
        intro p hp k hk
        simp at hp
      obtain ⟨hv1, hf1⟩ := mergeGo_inv idF tF sF _
        (fun st it st' hs hv => mergeBaseStep_inv preferSecond idF tF sF st st' it hs hv)
        base _ _ h1 hv0
      obtain ⟨hv2, hf2⟩ := mergeGo_inv idF tF sF _
        (fun st it st' hs hv => mergeIncomingStep_inv preferSecond idF tF sF st st' it hs hv)
        incoming _ _ h2 hv1
      have hm : st2.merged = merged := congrArg (fun t => t.1) (Option.some.inj h)
      rw [← hm, hf2, hf1]
      simp [List.filter_append]

/-- C8 (witness): the merge theorem applied to the concrete
`prefer_second = true` run, whose keyless record `{v:7}` survives the
merge. -/
theorem c8_merge_policy_witness :
    MergeJsons._merge [recA1] [recA2, recNoKey] true "id".data "title".data "singers".data =
      some ([recA2, recNoKey], 1, 1) ∧
    [recA2, recNoKey].filter (MergeJsons.noKey "id".data "title".data "singers".data) =
      (([recA1] : List Record) ++ [recA2, recNoKey]).filter
        (MergeJsons.noKey "id".data "title".data "singers".data) :=
  ⟨by rfl,
    (c8_merge_policy [recA1] [recA2, recNoKey] true "id".data "title".data "singers".data
      [recA2, recNoKey] 1 1 (by rfl)).1⟩

theorem lexLt_asymm : ∀ {a b : List Char}, lexLt a b = true → lexLt b a = true → False := by
  intro a
  induction a with
  | nil =>
    intro b h1 h2
    cases b with
    | nil => simp [lexLt] at h1
    | cons y ys => simp [lexLt] at h2
  | cons x xs ih =>
    intro b h1 h2
    cases b with
    | nil => simp [lexLt] at h1
    | cons y ys =>
      simp only [lexLt] at h1 h2
      split at h1
      · rename_i hxy
        rw [if_neg (Nat.lt_asymm hxy), if_pos hxy] at h2
        exact absurd h2 (by simp)
      · split at h1
        · exact absurd h1 (by simp)
        · rename_i hxy hyx
          rw [if_neg hyx, if_neg hxy] at h2
          exact ih h1 h2

theorem lexLt_conn : ∀ {a b : List Char}, lexLt a b = false → lexLt b a = false → a = b := by
  intro a
  induction a with
  | nil =>
    intro b h1 _
    cases b with
    | nil => rfl
    | cons y ys => simp [lexLt] at h1
  | cons x xs ih =>
    intro b h1 h2
    cases b with
    | nil => simp [lexLt] at h2
    | cons y ys =>
      simp only [lexLt] at h1 h2
      split at h1
      · exact absurd h1 (by simp)
      · split at h1
        · rename_i hxy hyx
          rw [if_pos hyx] at h2
          exact absurd h2 (by simp)
        · rename_i hxy hyx
          have hch : x = y := Char.eq_of_val_eq (UInt32.ext (Nat.le_antisymm
            (Nat.le_of_not_lt hyx) (Nat.le_of_not_lt hxy)))
          rw [if_neg hxy, if_neg hyx] at h2
          rw [hch, ih h1 h2]

theorem lexLt_trans : ∀ {a b c : List Char},
    lexLt a b = true → lexLt b c = true → lexLt a c = true := by
  intro a
  induction a with
  | nil =>
    intro b c h1 h2
    cases b with
    | nil => simp [lexLt] at h1
    | cons y ys =>
      cases c with
      | nil => simp [lexLt] at h2
      | cons z zs => simp [lexLt]
  | cons x xs ih =>
    intro b c h1 h2
    cases b with
    | nil => simp [lexLt] at h1
    | cons y ys =>
      cases c with
      | nil => simp [lexLt] at h2
      | cons z zs =>
        simp only [lexLt] at h1 h2 ⊢
        split at h1
        · rename_i hxy
          split at h2
          · rename_i hyz
            rw [if_pos (Nat.lt_trans hxy hyz)]
          · split at h2
            · exact absurd h2 (by simp)
            · rename_i hzy hyz
              have hyzEq : y.toNat = z.toNat :=
                Nat.le_antisymm (Nat.le_of_not_lt hyz) (Nat.le_of_not_lt hzy)
              rw [if_pos (hyzEq ▸ hxy)]
        · split at h1
          · exact absurd h1 (by simp)
          · rename_i hxy hyx
            have hxyEq : x.toNat = y.toNat :=
              Nat.le_antisymm (Nat.le_of_not_lt hyx) (Nat.le_of_not_lt hxy)
            split at h2
            · rename_i hyz
              rw [if_pos (hxyEq ▸ hyz)]
            · split at h2
              · exact absurd h2 (by simp)
              · rename_i hzy hyz
                rw [if_neg (fun hxz => hzy (by rw [hxyEq] at hxz; exact hxz)),
                  if_neg (fun hzx => hyz (by rw [← hxyEq]; exact hzx))]
                exact ih h1 h2

theorem dumpsEntries_eq_map (fs : List (List Char × Json)) :
    dumpsEntries fs = fs.map (fun kv => (kv.1, dumps kv.2)) := by
  induction fs with
  | nil => rfl
  | cons kv rest ih =>
    obtain ⟨k, v⟩ := kv
    simp [dumpsEntries, ih]

theorem insertionSort_entries_eq_of_perm {l₁ l₂ : List (List Char × List Char)}
    (hp : l₁.Perm l₂) (hnd : (l₁.map Prod.fst).Nodup) :
    List.insertionSort (fun a b => entryLe a b = true) l₁ =
      List.insertionSort (fun a b => entryLe a b = true) l₂ := by
  haveI htotal : IsTotal (List Char × List Char) (fun a b => entryLe a b = true) := by
    constructor
    intro a b
    by_cases h : lexLt b.1 a.1 = true
    · right
      simp only [entryLe, lexLe]
      by_cases h2 : lexLt a.1 b.1 = true
      · exact absurd (lexLt_asymm h h2) id
      · simp [h2]
    · left
      simp [entryLe, lexLe, h]
  haveI htrans : IsTrans (List Char × List Char) (fun a b => entryLe a b = true) := by
    constructor
    intro a b c h1 h2
    simp only [entryLe, lexLe, Bool.not_eq_true'] at h1 h2 ⊢
    by_cases hca : lexLt c.1 a.1 = true
    · by_cases hab : lexLt a.1 b.1 = true
      · exact absurd (lexLt_trans hca hab) (by simp [h2])
      · have : a.1 = b.1 := lexLt_conn (Bool.eq_false_iff.mpr hab) h1
        rw [this] at hca
        exact absurd hca (by simp [h2])
    · simpa using hca
  have hs₁ := List.sorted_insertionSort (fun a b => entryLe a b = true) l₁
  have hs₂ := List.sorted_insertionSort (fun a b => entryLe a b = true) l₂
  have hperm : (List.insertionSort (fun a b => entryLe a b = true) l₁).Perm
      (List.insertionSort (fun a b => entryLe a b = true) l₂) :=
    ((List.perm_insertionSort _ l₁).trans hp).trans (List.perm_insertionSort _ l₂).symm
  have hnd₂ : (l₂.map Prod.fst).Nodup := (hp.map Prod.fst).nodup_iff.mp hnd
  have hndkeys : ∀ (l : List (List Char × List Char)), (l.map Prod.fst).Nodup →
      ∀ s, s.Perm l → List.Sorted (fun a b => entryLe a b = true) s →
      List.Sorted (fun a b => lexLt a.1 b.1 = true) s := by
    intro l hl s hsp hsort
    have hnds : (s.map Prod.fst).Nodup := ((hsp.map Prod.fst).nodup_iff).mpr hl
    have hne : List.Pairwise (fun a b : List Char × List Char => a.1 ≠ b.1) s :=
      (List.pairwise_map).mp hnds
    exact (hsort.and hne).imp (fun {a b} hab => by
      obtain ⟨h1, h2⟩ := hab
      simp only [entryLe, lexLe, Bool.not_eq_true'] at h1
      by_cases hax : lexLt a.1 b.1 = true
      · exact hax
      · exact absurd (lexLt_conn (Bool.eq_false_iff.mpr hax) h1) h2)
  haveI : IsAntisymm (List Char × List Char) (fun a b => lexLt a.1 b.1 = true) :=
    ⟨fun a b h1 h2 => (lexLt_asymm h1 h2).elim⟩
  exact List.eq_of_perm_of_sorted hperm
    (hndkeys l₁ hnd _ (List.perm_insertionSort _ l₁) hs₁)
    (hndkeys l₂ hnd₂ _ (List.perm_insertionSort _ l₂) hs₂)

theorem dictGet_dictSet_self {κ α : Type} [DecidableEq κ] (d : List (κ × α)) (k : κ) (v : α) :
    dictGet (dictSet d k v) k = some v := by
  induction d with
  | nil => simp [dictSet, dictGet]
  | cons p rest ih =>
    obtain ⟨k', v'⟩ := p
    simp only [dictSet]
    split
    · rename_i hk
      simp [dictGet]
    · rename_i hk
      simp only [dictGet]
      rw [if_neg hk]
      exact ih

/-- C3: the cache-backed fetch performs exactly one external call for two
invocations with the same payload under the same key — a stored entry whose
recorded hash equals the payload's content hash is returned without any
call, and the content hash (which holds for every digest function `sha1`)
is computed from the key-sorted canonical serialisation and is therefore
independent of the payload's key order; a stored hash that differs
triggers a fresh call whose result replaces the entry. -/
theorem c3_cache_idempotence (sha1 : List Char → List Char)
    (call : Json → Except Unit Json) (cache : List (List Char × CacheEntry))
    (key : List Char) (payload : Json) :
    (∀ e, dictGet cache key = some e → e.inputHash = _input_hash sha1 payload →
      fetchWithCache sha1 call cache key payload = .ok (e.result, cache, 0)) ∧
    (∀ res c1 n1, dictGet cache key = none →
      fetchWithCache sha1 call cache key payload = .ok (res, c1, n1) →
      n1 = 1 ∧ fetchWithCache sha1 call c1 key payload = .ok (res, c1, 0)) ∧
    (∀ e res, dictGet cache key = some e → e.inputHash ≠ _input_hash sha1 payload →
      call payload = .ok res →
      fetchWithCache sha1 call cache key payload =
        .ok (res, dictSet cache key ⟨_input_hash sha1 payload, res⟩, 1)) ∧
    (∀ fields₁ fields₂ : List (List Char × Json), fields₁.Perm fields₂ →
      (fields₁.map Prod.fst).Nodup →
      _input_hash sha1 (.obj fields₁) = _input_hash sha1 (.obj fields₂)) := by
  refine ⟨?_, ?_, ?_, ?_⟩
  · intro e hget hhash
    unfold fetchWithCache
    rw [hget]
    simp [hhash]
  · intro res c1 n1 hget hfetch
    unfold fetchWithCache at hfetch ⊢
    rw [hget] at hfetch
    dsimp only at hfetch
    split at hfetch
    · exact absurd hfetch (by simp)
    · rename_i r hcall
      simp only [Except.ok.injEq, Prod.mk.injEq] at hfetch
      obtain ⟨h1, h2, h3⟩ := hfetch
      subst h1 h2 h3
      refine ⟨rfl, ?_⟩
      rw [dictGet_dictSet_self]
      simp
  · intro e res hget hhash hcall
    unfold fetchWithCache
    rw [hget]
    dsimp only
    rw [if_neg hhash, hcall]
  · intro f1 f2 hp hnd
    unfold _input_hash
    congr 1
    simp only [dumps]
    rw [dumpsEntries_eq_map, dumpsEntries_eq_map,
      insertionSort_entries_eq_of_perm (hp.map _)
        (by simpa [List.map_map, Function.comp] using hnd)]

/-- C3 (witness): a fresh-cache fetch followed by a byte-identical fetch
performs one call then zero, and the content hash agrees across the two
key orders of the same payload. -/
theorem c3_cache_idempotence_witness :
    (1 = 1 ∧ fetchWithCache shaId callOk
        (dictSet [] "k".data ⟨_input_hash shaId payAB, .str "r".data⟩) "k".data payAB =
      .ok (.str "r".data,
        dictSet [] "k".data ⟨_input_hash shaId payAB, .str "r".data⟩, 0)) ∧
    _input_hash shaId payAB = _input_hash shaId payBA :=
  ⟨(c3_cache_idempotence shaId callOk [] "k".data payAB).2.1
      (.str "r".data) (dictSet [] "k".data ⟨_input_hash shaId payAB, .str "r".data⟩) 1
      rfl (by rfl),
   (c3_cache_idempotence shaId callOk [] "k".data payAB).2.2.2
      [("a".data, .num 1), ("b".data, .str "x".data)]
      [("b".data, .str "x".data), ("a".data, .num 1)]
      (List.Perm.swap _ _ _) (by decide)⟩

/-- C9: a raised external call never creates or modifies a cache entry.
For the Wikipedia path, an error raised by the search request, the
page-content request or the extract request propagates out of
`_fetch_wikipedia_data` before any entry is stored, and the caller catches
it, leaving the item unenriched (`none`) with the cache exactly as it was.
For the model path, an error in the call propagates before the cache
assignment, aborting the run before the cache file is rewritten. -/
theorem c9_failed_call_not_cached (api : WikiApi)
    (wikiCache : List (List Char × Option WikiResult)) (movie : List Char)
    (sha1 : List Char → List Char) (call : Json → Except Unit Json)
    (cache : List (List Char × CacheEntry)) (key : List Char) (payload : Json) :
    (_wiki_search_title api movie = .error () →
      stripWs (lowerStr movie) ≠ [] →
      dictGet wikiCache (stripWs (lowerStr movie)) = none →
      _fetch_wikipedia_data api wikiCache movie = .error ()) ∧
    (∀ title, _wiki_search_title api movie = .ok (some title) →
      api.pageWikitext title = .error () →
      stripWs (lowerStr movie) ≠ [] →
      dictGet wikiCache (stripWs (lowerStr movie)) = none →
      _fetch_wikipedia_data api wikiCache movie = .error ()) ∧
    (∀ title wt, _wiki_search_title api movie = .ok (some title) →
      api.pageWikitext title = .ok wt → api.pageExtract title = .error () →
      stripWs (lowerStr movie) ≠ [] →
      dictGet wikiCache (stripWs (lowerStr movie)) = none →
      _fetch_wikipedia_data api wikiCache movie = .error ()) ∧
    (_fetch_wikipedia_data api wikiCache movie = .error () →
      wikiEnrichStep api wikiCache (some movie) = (none, wikiCache)) ∧
    (dictGet cache key = none → call payload = .error () →
      fetchWithCache sha1 call cache key payload = .error ()) ∧
    (∀ e, dictGet cache key = some e → e.inputHash ≠ _input_hash sha1 payload →
      call payload = .error () →
      fetchWithCache sha1 call cache key payload = .error ()) := by
  refine ⟨?_, ?_, ?_, ?_, ?_, ?_⟩
  · intro hsearch hne hget
    unfold _fetch_wikipedia_data
    dsimp only
    rw [if_neg hne, hget, hsearch]
  · intro title hsearch hpage hne hget
    unfold _fetch_wikipedia_data
    dsimp only
    rw [if_neg hne, hget, hsearch]
    dsimp only
    rw [hpage]
  · intro title wt hsearch hpage hext hne hget
    unfold _fetch_wikipedia_data
    dsimp only
    rw [if_neg hne, hget, hsearch]
    dsimp only
    rw [hpage]
    dsimp only
    rw [hext]
  · intro hfetch
    unfold wikiEnrichStep
    dsimp only
    by_cases hm : movie = []
    · rw [if_pos hm]
    · rw [if_neg hm, hfetch]
  · intro hget hcall
    unfold fetchWithCache
    rw [hget]
    dsimp only
    rw [hcall]
  · intro e hget hhash hcall
    unfold fetchWithCache
    rw [hget]
    dsimp only
    rw [if_neg hhash, hcall]

/-- C9 (witness): the failure clauses applied to a run whose first search
request raises, and to a model call that raises on a fresh cache. -/
theorem c9_failed_call_not_cached_witness :
    wikiEnrichStep apiSearchRaise [] (some "Big Movie".data) = (none, []) ∧
    fetchWithCache shaId callRaise [] "k".data payAB = .error () :=
  have h := c9_failed_call_not_cached apiSearchRaise [] "Big Movie".data
    shaId callRaise [] "k".data payAB
  ⟨h.2.2.2.1 (h.1 (by rfl) (by decide) rfl),
   h.2.2.2.2.1 rfl (by rfl)⟩

theorem dictGet_dictSet_ne {κ α : Type} [DecidableEq κ] (d : List (κ × α)) (k k' : κ)
    (v : α) (h : k ≠ k') : dictGet (dictSet d k v) k' = dictGet d k' := by
  induction d with
  | nil => simp [dictSet, dictGet, h]
  | cons p rest ih =>
    obtain ⟨k0, v0⟩ := p
    simp only [dictSet]
    split
    · rename_i hk
      subst hk
      simp [dictGet, h]
    · simp only [dictGet, ih]

theorem dictGet_eq_none_of_not_mem {κ α : Type} [DecidableEq κ] {d : List (κ × α)}
    {k : κ} (h : k ∉ d.map Prod.fst) : dictGet d k = none := by
  induction d with
  | nil => rfl
  | cons p rest ih =>
    obtain ⟨k0, v0⟩ := p
    simp only [List.map_cons, List.mem_cons] at h
    push_neg at h
    simp only [dictGet]
    rw [if_neg (fun hk => h.1 hk.symm)]
    exact ih h.2

/-- The merged record after the overwrite loop: a key present in both the
record and the result takes the result's value, every other key keeps the
record's value; keys absent from the record are never added. -/
theorem mergeFields_lookup (result : Record) (hnd : (result.map Prod.fst).Nodup) :
    ∀ (acc : Record) (k : List Char),
    dictGet (mergeFields acc result) k =
      if (dictGet acc k).isSome ∧ (dictGet result k).isSome
      then dictGet result k else dictGet acc k := by
  induction result with
  | nil =>
    intro acc k
    simp [mergeFields, dictGet]
  | cons kv rest ih =>
    obtain ⟨k0, v0⟩ := kv
    intro acc k
    simp only [List.map_cons, List.nodup_cons] at hnd
    have hrest := ih hnd.2
    simp only [mergeFields, List.foldl_cons] at hrest ⊢
    rw [hrest]
    by_cases hk : k = k0
    · subst hk
      have hrnone : dictGet rest k = none := dictGet_eq_none_of_not_mem hnd.1
      have hcons : dictGet ((k, v0) :: rest) k = some v0 := by simp [dictGet]
      rw [hcons, hrnone]
      by_cases hacc : (dictGet acc k).isSome
      · rw [if_pos hacc]
        simp only [Option.isSome_none, Bool.false_eq_true, and_false, if_false]
        rw [dictGet_dictSet_self]
        simp [hacc]
      · rw [if_neg hacc]
        simp [Option.not_isSome_iff_eq_none.mp hacc]
    · have hcons : dictGet ((k0, v0) :: rest) k = dictGet rest k := by
        simp only [dictGet]
        rw [if_neg (fun hh => hk hh.symm)]
      rw [hcons]
      by_cases hacc0 : (dictGet acc k0).isSome
      · rw [if_pos hacc0]
        rw [dictGet_dictSet_ne _ _ _ _ (fun hh => hk hh.symm)]
      · rw [if_neg hacc0]

/-- C10: applying a model result to a record overwrites only the fields the
record already has — a result key the record lacks is ignored, a record
field the result does not mention keeps its value — after which only the
title is re-normalised and the singers list re-split, and every other
field holds exactly the merged value. -/
theorem c10_apply_result_frame (language : List Char) (item result cleaned : Record)
    (hnd : (result.map Prod.fst).Nodup)
    (happ : _apply_result language item result = some cleaned) :
    (∀ k, k ≠ "title".data → k ≠ "singers".data →
      dictGet cleaned k =
        if (dictGet item k).isSome ∧ (dictGet result k).isSome
        then dictGet result k else dictGet item k) ∧
    (∀ t, pyStrOrEmpty (dictGet (mergeFields item result) "title".data) = some t →
      dictGet cleaned "title".data =
        some (.str (CleanMeta._normalize_title language t))) ∧
    dictGet cleaned "singers".data =
      some (.arr ((CleanMeta._normalize_singers
        (dictGet (mergeFields item result) "singers".data)).map .str)) := by
  unfold _apply_result at happ
  dsimp only at happ
  split at happ
  · exact absurd happ (by simp)
  · rename_i t0 ht0
    have hcl := (Option.some.inj happ).symm
    have htns : ("title".data : List Char) ≠ "singers".data := by decide
    have hsnt : ("singers".data : List Char) ≠ "title".data := by decide
    refine ⟨?_, ?_, ?_⟩
    · intro k hkt hks
      rw [hcl, dictGet_dictSet_ne _ _ _ _ (fun hh => hks hh.symm),
        dictGet_dictSet_ne _ _ _ _ (fun hh => hkt hh.symm)]
      exact mergeFields_lookup result hnd item k
    · intro t ht
      have : t = t0 := Option.some.inj (ht.symm.trans ht0)
      subst this
      rw [hcl, dictGet_dictSet_ne _ _ _ _ hsnt, dictGet_dictSet_self]
    · rw [hcl, dictGet_dictSet_self, dictGet_dictSet_ne _ _ _ _ htns]

/-- C10 (witness): the frame theorem applied to a concrete record and
result: the unknown result key `extra` is ignored, the absent record key
`hero` is not added, `movie` takes the result value, `id` keeps its
value. -/
theorem c10_apply_result_frame_witness :
    (dictGet (mergeFields recApply resApply) "movie".data = some (.str "M".data) ∧
     dictGet (mergeFields recApply resApply) "extra".data = none ∧
     dictGet (mergeFields recApply resApply) "hero".data = none ∧
     dictGet (mergeFields recApply resApply) "id".data = some (.str "i".data)) ∧
    ∀ cl, _apply_result "tamil".data recApply resApply = some cl →
      dictGet cl "movie".data =
        if (dictGet recApply "movie".data).isSome ∧ (dictGet resApply "movie".data).isSome
        then dictGet resApply "movie".data else dictGet recApply "movie".data :=
  ⟨⟨rfl, rfl, rfl, rfl⟩,
   fun cl hcl =>
    (c10_apply_result_frame "tamil".data recApply resApply cl (by decide) hcl).1
      "movie".data (by decide) (by decide)⟩

theorem lstripP_cons_of_neg {p : Char → Bool} {c : Char} {cs : List Char}
    (h : p c = false) : lstripP p (c :: cs) = c :: cs := by
  simp [lstripP, h]

theorem lstripP_append_cons (p : Char → Bool) (l₁ : List Char) (c : Char) (l₂ : List Char)
    (h : p c = false) : lstripP p (l₁ ++ c :: l₂) = lstripP p l₁ ++ c :: l₂ := by
  induction l₁ with
  | nil => simp [lstripP, h]
  | cons a as ih =>
    by_cases hpa : p a = true
    · simp only [List.cons_append, lstripP, hpa, if_true]
      exact ih
    · simp only [List.cons_append, lstripP, Bool.eq_false_iff.mpr hpa]
      simp [ih]

theorem base80_cons : Examples.base80 = 'a' :: List.replicate 79 'a' := rfl

theorem base80_reverse : Examples.base80.reverse = Examples.base80 := by
  simp [Examples.base80, List.reverse_replicate]

/-- Both end-strips leave the `aaa…a` block alone and only touch the tail
after it. -/
theorem stripP_base80_append (p : Char → Bool) (hpa : p 'a' = false) (u : List Char) :
    stripP p (Examples.base80 ++ '-' :: u) =
      Examples.base80 ++ rstripP p ('-' :: u) := by
  have h1 : lstripP p (Examples.base80 ++ '-' :: u) = Examples.base80 ++ '-' :: u := by
    rw [base80_cons, List.cons_append, lstripP_cons_of_neg hpa]
  unfold stripP
  rw [h1]
  unfold rstripP
  rw [List.reverse_append, base80_reverse, base80_cons,
    lstripP_append_cons p _ 'a' _ hpa, List.reverse_append, List.reverse_cons,
    List.reverse_replicate, ← List.replicate_succ']
  rfl

theorem stripP_base80 (p : Char → Bool) (hpa : p 'a' = false) :
    stripP p Examples.base80 = Examples.base80 := by
  have h1 : lstripP p Examples.base80 = Examples.base80 := by
    rw [base80_cons, lstripP_cons_of_neg hpa]
  unfold stripP
  rw [h1]
  unfold rstripP
  rw [base80_reverse, base80_cons, lstripP_cons_of_neg hpa, ← base80_cons, base80_reverse]

theorem rstripP_cons_of_neg (p : Char → Bool) (c : Char) (u : List Char)
    (h : p c = false) : rstripP p (c :: u) = c :: rstripP p u := by
  unfold rstripP
  rw [List.reverse_cons, lstripP_append_cons p _ c [] h, List.reverse_append]
  rfl

theorem slugSubGo_alnum_append (l r : List Char) (h : ∀ c ∈ l, isLowAlnum c = true) :
    slugSubGo false (l ++ r) = l ++ slugSubGo false r := by
  induction l with
  | nil => rfl
  | cons a as ih =>
    have ha := h a (List.mem_cons_self a as)
    simp only [List.cons_append, slugSubGo, ha, if_true]
    exact congrArg (a :: ·) (ih (fun c hc => h c (List.mem_cons_of_mem a hc)))

theorem lowerStr_base80_append (s : List Char) :
    lowerStr (Examples.base80 ++ '-' :: s) = Examples.base80 ++ '-' :: lowerStr s := by
  unfold lowerStr
  rw [List.map_append]
  have hb : List.map Char.toLower Examples.base80 = Examples.base80 := by
    rw [show Examples.base80 = List.replicate 80 'a' from rfl, List.map_replicate]
    rfl
  rw [hb]
  rfl

/-- The heart of the C2 divergence: whatever is appended after
`aaa…a-`, `_slugify` truncates the candidate back to the 80 `a`s. -/
theorem slugify_base80_append (s : List Char) :
    _slugify (Examples.base80 ++ '-' :: s) = Examples.base80 := by
  unfold _slugify
  dsimp only
  rw [lowerStr_base80_append]
  rw [show stripWs (Examples.base80 ++ '-' :: lowerStr s) =
      Examples.base80 ++ rstripP isSpace ('-' :: lowerStr s) from
    stripP_base80_append isSpace rfl _]
  rw [rstripP_cons_of_neg isSpace '-' _ rfl]
  rw [show slugSub (Examples.base80 ++ '-' :: rstripP isSpace (lowerStr s)) =
      Examples.base80 ++ slugSub ('-' :: rstripP isSpace (lowerStr s)) from
    slugSubGo_alnum_append _ _ (fun c hc => by
      rw [List.eq_of_mem_replicate hc]; rfl)]
  rw [show slugSub ('-' :: rstripP isSpace (lowerStr s)) =
      '-' :: slugSubGo true (rstripP isSpace (lowerStr s)) from rfl]
  rw [show stripIn ['-'] (Examples.base80 ++ '-' ::
        slugSubGo true (rstripP isSpace (lowerStr s))) =
      Examples.base80 ++ rstripP (fun c => List.contains ['-'] c)
        ('-' :: slugSubGo true (rstripP isSpace (lowerStr s))) from
    stripP_base80_append _ rfl _]
  rw [if_neg (by simp [base80_cons])]
  rw [show (80 : Nat) = Examples.base80.length from by simp [Examples.base80],
    List.take_left]
  exact stripP_base80 _ rfl

theorem contains_base80_self : List.contains [Examples.base80] Examples.base80 = true := by
  simp [List.contains]

theorem assignWhile_base80_none (fuel counter : Nat) :
    assignWhile Examples.base80 [Examples.base80] fuel counter Examples.base80 = none := by
  induction fuel generalizing counter with
  | zero =>
    unfold assignWhile
    rw [if_pos contains_base80_self]
  | succ f ih =>
    unfold assignWhile
    rw [if_pos contains_base80_self, slugify_base80_append]
    exact ih (counter + 1)

/-- C2 (code bug): with an 80-character base slug (the `_slugify` cap) that
is already in use, every disambiguated candidate — the suffix candidate and
every numeric-suffix candidate `base-2`, `base-3`, … — is truncated back to
the base by `_slugify`'s 80-character cap, so the collision `while` loop
never finds an unused candidate and the run never terminates, for any
number of iterations, in both the Tamil and the English builder; the claim
(and the spec) say an identifier is always produced.  The slug of an
80-`a` title is exactly that 80-character base. -/
theorem c2_collision_loop_diverges :
    _slugify (List.replicate 80 'a') = Examples.base80 ∧
    (∀ fuel, assignUniqueId fuel Examples.base80 none none [] [Examples.base80] = none) ∧
    (∀ fuel, assignUniqueIdEn fuel Examples.base80 none [Examples.base80] = none) := by
  refine ⟨?_, ?_, ?_⟩
  · unfold _slugify
    dsimp only
    rw [show lowerStr (List.replicate 80 'a') = Examples.base80 from by
      rw [lowerStr, List.map_replicate]; rfl]
    rw [show stripWs Examples.base80 = Examples.base80 from stripP_base80 _ rfl]
    rw [show slugSub Examples.base80 = Examples.base80 from by
      rw [show Examples.base80 = Examples.base80 ++ ([] : List Char) from by simp]
      rw [show slugSub (Examples.base80 ++ []) =
          Examples.base80 ++ slugSub ([] : List Char) from
        slugSubGo_alnum_append _ _ (fun c hc => by
          rw [List.eq_of_mem_replicate hc]; rfl)]
      simp [slugSub, slugSubGo]]
    rw [show stripIn ['-'] Examples.base80 = Examples.base80 from stripP_base80 _ rfl]
    rw [if_neg (by simp [base80_cons])]
    rw [show (80 : Nat) = Examples.base80.length from by simp [Examples.base80],
      List.take_length]
    exact stripP_base80 _ rfl
  · intro fuel
    unfold assignUniqueId
    dsimp only
    rw [if_pos contains_base80_self]
    rw [show _slugify (match (none : Option (List Char)) with
        | some m => if m = [] then ([] : List Char) else m
        | none => []) = "song".data from rfl]
    rw [if_neg (by decide)]
    rw [slugify_base80_append]
    exact assignWhile_base80_none fuel 2
  · intro fuel
    unfold assignUniqueIdEn
    dsimp only
    rw [if_pos contains_base80_self, slugify_base80_append]
    exact assignWhile_base80_none fuel 2

theorem assignWhile_not_used {base : List Char} {used : List (List Char)}
    {fuel counter : Nat} {uid v : List Char}
    (h : assignWhile base used fuel counter uid = some v) :
    used.contains v = false := by
  induction fuel generalizing counter uid with
  | zero =>
    unfold assignWhile at h
    split at h
    · exact absurd h (by simp)
    · rename_i hc
      rw [← Option.some.inj h]
      exact Bool.eq_false_iff.mpr hc
  | succ f ih =>
    unfold assignWhile at h
    split at h
    · exact ih h
    · rename_i hc
      rw [← Option.some.inj h]
      exact Bool.eq_false_iff.mpr hc

theorem assignUniqueId_not_used {fuel : Nat} {base : List Char}
    {trackId movie : Option (List Char)} {album : List Char}
    {used : List (List Char)} {uid : List Char}
    (h : assignUniqueId fuel base trackId movie album used = some uid) :
    used.contains uid = false :=
  assignWhile_not_used h

theorem contains_addUsed_of_contains {used : List (List Char)} {x y : List Char}
    (h : used.contains x = true) : (addUsed used y).contains x = true := by
  unfold addUsed
  split
  · exact h
  · have hx : x ∈ used := List.mem_of_elem_eq_true h
    exact List.elem_iff.mpr (List.mem_cons_of_mem _ hx)

theorem contains_addUsed_self (used : List (List Char)) (y : List Char) :
    (addUsed used y).contains y = true := by
  unfold addUsed
  split
  · rename_i h
    exact h
  · exact List.elem_iff.mpr (List.mem_cons_self _ _)

theorem publish_inv {items : List TamilItem} {used : List (List Char)}
    {it : TamilItem}
    (hnd : (items.map TamilItem.id).Nodup)
    (hsub : ∀ i ∈ items, used.contains i.id = true)
    (hnew : used.contains it.id = false) :
    ((items ++ [it]).map TamilItem.id).Nodup ∧
    (∀ i ∈ items ++ [it], (addUsed used it.id).contains i.id = true) := by
  constructor
  · rw [List.map_append]
    rw [List.nodup_append]
    refine ⟨hnd, by simp, ?_⟩
    intro a ha
    simp only [List.map_cons, List.map_nil, List.mem_singleton]
    intro hae
    obtain ⟨j, hj, hja⟩ := List.mem_map.mp ha
    rw [hae] at hja
    have := hsub j hj
    rw [hja] at this
    rw [this] at hnew
    exact absurd hnew (by simp)
  · intro i hi
    rcases List.mem_append.mp hi with hi | hi
    · exact contains_addUsed_of_contains (hsub i hi)
    · rw [List.mem_singleton.mp hi]
      exact contains_addUsed_self used it.id

theorem applyOverride_id_of_empty (ov : TamilOverride) (it : TamilItem)
    (h : ov.id = []) : (applyOverride ov it).id = it.id := by
  simp [applyOverride, h]

theorem stepTamil_inv {env : TamilEnv} {fuel : Nat}
    {used : List (List Char)} {items : List TamilItem} {row : TamilRow}
    {used' : List (List Char)} {items' : List TamilItem}
    (hov : ∀ uri ov, env.overrides uri = some ov → ov.id = [])
    (hstep : stepTamil env fuel used items row = some (used', items'))
    (hnd : (items.map TamilItem.id).Nodup)
    (hsub : ∀ i ∈ items, used.contains i.id = true) :
    (items'.map TamilItem.id).Nodup ∧
    ∀ i ∈ items', used'.contains i.id = true := by
  unfold stepTamil at hstep
  dsimp only at hstep
  split at hstep
  · injection hstep with h
    injection h with h1 h2
    subst h1; subst h2
    exact ⟨hnd, hsub⟩
  · split at hstep
    · exact absurd hstep (by simp)
    · rename_i uniqueId hassign
      split at hstep
      · injection hstep with h
        injection h with h1 h2
        subst h1; subst h2
        exact ⟨hnd, hsub⟩
      · rename_i previewBase hsel
        split at hstep
        · injection hstep with h
          injection h with h1 h2
          subst h1; subst h2
          exact ⟨hnd, hsub⟩
        · split at hstep
          · injection hstep with h
            injection h with h1 h2
            subst h1; subst h2
            exact ⟨hnd, hsub⟩
          · split at hstep
            · exact absurd hstep (by simp)
            · rename_i keyName hkey
              split at hstep
              · injection hstep with h
                injection h with h1 h2
                subst h1; subst h2
                exact publish_inv hnd hsub (assignUniqueId_not_used hassign)
              · rename_i ov hovsome
                split at hstep
                · injection hstep with h
                  injection h with h1 h2
                  subst h1; subst h2
                  exact ⟨hnd, hsub⟩
                · injection hstep with h
                  injection h with h1 h2
                  subst h1; subst h2
                  refine publish_inv hnd hsub ?_
                  rw [applyOverride_id_of_empty _ _ (hov _ _ hovsome)]
                  exact assignUniqueId_not_used hassign

theorem runTamilGo_inv {env : TamilEnv} {fuel : Nat}
    (hov : ∀ uri ov, env.overrides uri = some ov → ov.id = []) :
    ∀ (rows : List TamilRow) (used : List (List Char)) (items : List TamilItem)
      (st' : List (List Char) × List TamilItem),
      runTamilGo env fuel rows (used, items) = some st' →
      (items.map TamilItem.id).Nodup →
      (∀ i ∈ items, used.contains i.id = true) →
      (st'.2.map TamilItem.id).Nodup
  | [], _, _, _, h, hnd, _ => by
    unfold runTamilGo at h
    rw [← Option.some.inj h]
    exact hnd
  | r :: rs, used, items, st', h, hnd, hsub => by
    unfold runTamilGo at h
    dsimp only at h
    split at h
    · exact absurd h (by simp)
    · rename_i st1 hstep
      obtain ⟨hnd1, hsub1⟩ := stepTamil_inv hov hstep hnd hsub
      exact runTamilGo_inv hov rs st1.1 st1.2 st' h hnd1 hsub1

/-- C1 (counterexample): with two CSV rows whose override rows assign the
same id `x`, the run publishes two records both with id `x` — the override
assignment at lines 392-413 never checks the override id against the used
set, so the published list violates id uniqueness. -/
theorem c1_override_id_collision :
    (runTamil Examples.envDupOv 5 Examples.rowsDupOv).map
        (fun l => l.map TamilItem.id) = some ["x".data, "x".data] ∧
    ¬ (["x".data, "x".data] : List (List Char)).Nodup :=
  ⟨by rfl, by decide⟩

/-- C1 (amended): in a run in which no override row carries a non-empty
`id` column, the published output list contains no two records with equal
`id` values — the Identity Assigner's uniqueness holds whenever the human
override path does not replace ids. -/
theorem c1_unique_ids_amended (env : TamilEnv) (fuel : Nat)
    (rows : List TamilRow) (items : List TamilItem)
    (hov : ∀ uri ov, env.overrides uri = some ov → ov.id = [])
    (hrun : runTamil env fuel rows = some items) :
    (items.map TamilItem.id).Nodup := by
  unfold runTamil at hrun
  cases hgo : runTamilGo env fuel rows ([], []) with
  | none => rw [hgo] at hrun; exact absurd hrun (by simp)
  | some st =>
    rw [hgo] at hrun
    simp only [Option.map_some'] at hrun
    have h := runTamilGo_inv hov rows [] [] st hgo (by simp) (by simp)
    rw [Option.some.inj hrun] at h
    exact h

theorem c1_unique_ids_amended_witness :
    runTamil Examples.envNoOv 5 [Examples.rowAlpha] = some [Examples.itemAlpha] ∧
    (([Examples.itemAlpha] : List TamilItem).map TamilItem.id).Nodup :=
  ⟨by rfl,
   c1_unique_ids_amended Examples.envNoOv 5 [Examples.rowAlpha]
     [Examples.itemAlpha] (fun _ _ h => Option.noConfusion h) (by rfl)⟩

theorem lstripP_suffix (p : Char → Bool) : ∀ s : List Char, lstripP p s <:+ s
  | [] => List.suffix_refl []
  | c :: cs => by
    unfold lstripP
    split
    · exact (lstripP_suffix p cs).trans (List.suffix_cons c cs)
    · exact List.suffix_refl _

theorem rstripP_prefix_self (p : Char → Bool) (s : List Char) : rstripP p s <+: s := by
  have h' : ((lstripP p s.reverse).reverse).reverse <:+ s.reverse := by
    rw [List.reverse_reverse]
    exact lstripP_suffix p s.reverse
  exact List.reverse_suffix.mp h'

theorem stripP_infix (p : Char → Bool) (s : List Char) : stripP p s <:+: s :=
  (rstripP_prefix_self p (lstripP p s)).isInfix.trans (lstripP_suffix p s).isInfix

theorem lstripP_head_not (p : Char → Bool) :
    ∀ (s : List Char) (c : Char) (cs : List Char),
      lstripP p s = c :: cs → p c = false
  | [], c, cs, h => by exact absurd h (by simp [lstripP])
  | d :: ds, c, cs, h => by
    unfold lstripP at h
    split at h
    · exact lstripP_head_not p ds c cs h
    · rename_i hd
      injection h with h1 h2
      rw [← h1]
      exact Bool.eq_false_iff.mpr hd

theorem lstripP_eq_self (p : Char → Bool) (s : List Char)
    (h : ∀ c, s.head? = some c → p c = false) : lstripP p s = s := by
  cases s with
  | nil => rfl
  | cons c cs =>
    unfold lstripP
    rw [h c rfl]
    simp

theorem rstripP_eq_self (p : Char → Bool) (s : List Char)
    (h : ∀ c, s.getLast? = some c → p c = false) : rstripP p s = s := by
  unfold rstripP
  rw [lstripP_eq_self p s.reverse, List.reverse_reverse]
  intro c hc
  rw [List.head?_reverse] at hc
  exact h c hc

theorem stripP_eq_self (p : Char → Bool) (s : List Char)
    (h1 : ∀ c, s.head? = some c → p c = false)
    (h2 : ∀ c, s.getLast? = some c → p c = false) : stripP p s = s := by
  unfold stripP
  rw [lstripP_eq_self p s h1]
  exact rstripP_eq_self p s h2

theorem stripP_head_not (p : Char → Bool) (s : List Char) {c : Char}
    {cs : List Char} (h : stripP p s = c :: cs) : p c = false := by
  unfold stripP at h
  obtain ⟨t, ht⟩ := rstripP_prefix_self p (lstripP p s)
  rw [h] at ht
  exact lstripP_head_not p s c (cs ++ t) (by rw [← ht]; simp)

theorem stripP_getLast_not (p : Char → Bool) (s : List Char) {c : Char}
    (h : (stripP p s).getLast? = some c) : p c = false := by
  unfold stripP rstripP at h
  rw [List.getLast?_reverse] at h
  cases hL : lstripP p (lstripP p s).reverse with
  | nil => rw [hL] at h; exact absurd h (by simp)
  | cons d ds =>
    rw [hL] at h
    have hd : d = c := by simpa using h
    rw [← hd]
    exact lstripP_head_not p (lstripP p s).reverse d ds hL

theorem stripP_idem (p : Char → Bool) (s : List Char) :
    stripP p (stripP p s) = stripP p s := by
  apply stripP_eq_self
  · intro c hc
    cases hs : stripP p s with
    | nil => rw [hs] at hc; exact absurd hc (by simp)
    | cons d ds =>
      rw [hs] at hc
      have : d = c := by simpa using hc
      rw [← this]
      exact stripP_head_not p s hs
  · intro c hc
    exact stripP_getLast_not p s hc

theorem wsSingle_subset {s t : List Char} (hsub : s ⊆ t)
    (h : wsSingle t = true) : wsSingle s = true := by
  simp only [wsSingle, List.all_eq_true] at h ⊢
  exact fun c hc => h c (hsub hc)

theorem noAdjWs_tail {a : Char} {l : List Char}
    (h : noAdjWs (a :: l) = true) : noAdjWs l = true := by
  cases l with
  | nil => rfl
  | cons b rest =>
    unfold noAdjWs at h
    exact (Bool.and_eq_true .. ▸ h).2

theorem noAdjWs_cons (a : Char) (l : List Char)
    (h : ∀ d, l.head? = some d → (isSpace a && isSpace d) = false)
    (hl : noAdjWs l = true) : noAdjWs (a :: l) = true := by
  cases l with
  | nil => rfl
  | cons b rest =>
    unfold noAdjWs
    rw [h b rfl, hl]
    rfl

theorem noAdjWs_suffix {u s : List Char} (h : u <:+ s)
    (hs : noAdjWs s = true) : noAdjWs u = true := by
  obtain ⟨t, rfl⟩ := h
  induction t with
  | nil => exact hs
  | cons a t ih => exact ih (noAdjWs_tail hs)

theorem noAdjWs_append_left :
    ∀ (u t : List Char), noAdjWs (u ++ t) = true → noAdjWs u = true
  | [], _, _ => rfl
  | [_], _, _ => rfl
  | a :: b :: u', t, h => by
    rw [List.cons_append, List.cons_append] at h
    simp only [noAdjWs, Bool.and_eq_true] at h ⊢
    exact ⟨h.1, noAdjWs_append_left (b :: u') t h.2⟩

theorem noAdjWs_infix {u s : List Char} (h : u <:+: s)
    (hs : noAdjWs s = true) : noAdjWs u = true := by
  obtain ⟨v, w, rfl⟩ := h
  rw [List.append_assoc] at hs
  exact noAdjWs_append_left u w (noAdjWs_suffix (List.suffix_append v (u ++ w)) hs)

theorem collapseWsGo_wsSingle :
    ∀ (b : Bool) (s : List Char), wsSingle (collapseWsGo b s) = true
  | _, [] => rfl
  | b, c :: cs => by
    unfold collapseWsGo
    split
    · split
      · exact collapseWsGo_wsSingle true cs
      · have ih := collapseWsGo_wsSingle true cs
        simp only [wsSingle, List.all_cons, Bool.and_eq_true] at ih ⊢
        exact ⟨by decide, ih⟩
    · rename_i hc
      have ih := collapseWsGo_wsSingle false cs
      simp only [wsSingle, List.all_cons, Bool.and_eq_true] at ih ⊢
      refine ⟨?_, ih⟩
      rw [Bool.eq_false_iff.mpr hc]
      rfl

theorem collapseWsGo_head_not :
    ∀ (s : List Char) (c : Char) (cs : List Char),
      collapseWsGo true s = c :: cs → isSpace c = false
  | [], c, cs, h => by exact absurd h (by simp [collapseWsGo])
  | d :: ds, c, cs, h => by
    unfold collapseWsGo at h
    split at h
    · exact collapseWsGo_head_not ds c cs (by simpa using h)
    · rename_i hd
      injection h with h1 h2
      rw [← h1]
      exact Bool.eq_false_iff.mpr hd

theorem collapseWsGo_noAdj :
    ∀ (b : Bool) (s : List Char), noAdjWs (collapseWsGo b s) = true
  | _, [] => rfl
  | b, c :: cs => by
    unfold collapseWsGo
    split
    · split
      · exact collapseWsGo_noAdj true cs
      · refine noAdjWs_cons _ _ ?_ (collapseWsGo_noAdj true cs)
        intro d hd
        cases hX : collapseWsGo true cs with
        | nil => rw [hX] at hd; exact absurd hd (by simp)
        | cons e es =>
          rw [hX] at hd
          have he : e = d := by simpa using hd
          rw [Bool.and_eq_false_iff]
          right
          rw [← he]
          exact collapseWsGo_head_not cs e es hX
    · rename_i hc
      refine noAdjWs_cons _ _ ?_ (collapseWsGo_noAdj false cs)
      intro d _
      rw [Bool.and_eq_false_iff]
      left
      exact Bool.eq_false_iff.mpr hc

theorem collapseWsGo_id :
    ∀ (s : List Char) (b : Bool), wsSingle s = true → noAdjWs s = true →
      (b = true → ∀ c cs, s = c :: cs → isSpace c = false) →
      collapseWsGo b s = s
  | [], _, _, _, _ => rfl
  | c :: cs, b, hws, hna, hhead => by
    have hwst : wsSingle cs = true := by
      simp only [wsSingle, List.all_cons, Bool.and_eq_true] at hws
      exact hws.2
    unfold collapseWsGo
    by_cases hc : isSpace c = true
    · rw [if_pos hc]
      cases b with
      | true =>
        have := hhead rfl c cs rfl
        rw [hc] at this
        exact absurd this (by simp)
      | false =>
        rw [if_neg (by simp)]
        have hc' : c = ' ' := by
          simp only [wsSingle, List.all_cons, Bool.and_eq_true] at hws
          have h1 := hws.1
          rw [hc] at h1
          simpa using h1
        rw [hc']
        have hrest : collapseWsGo true cs = cs := by
          refine collapseWsGo_id cs true hwst (noAdjWs_tail hna) ?_
          intro _ d ds hds
          rw [hds] at hna
          unfold noAdjWs at hna
          rw [Bool.and_eq_true] at hna
          have h1 := hna.1
          rw [Bool.not_eq_true', Bool.and_eq_false_iff] at h1
          rcases h1 with h1 | h1
          · rw [hc] at h1; exact absurd h1 (by simp)
          · exact h1
        rw [hrest]
    · rw [if_neg hc]
      rw [collapseWsGo_id cs false hwst (noAdjWs_tail hna) (fun h => nomatch h)]

theorem collapseWs_id (s : List Char) (h1 : wsSingle s = true)
    (h2 : noAdjWs s = true) : collapseWs s = s :=
  collapseWsGo_id s false h1 h2 (fun h => nomatch h)

theorem mem_of_getLast_opt {c : Char} {l : List Char}
    (h : l.getLast? = some c) : c ∈ l := by
  rw [← List.head?_reverse] at h
  cases hr : l.reverse with
  | nil => rw [hr] at h; exact absurd h (by simp)
  | cons d ds =>
    rw [hr] at h
    have : d = c := by simpa using h
    rw [← List.mem_reverse, hr, this]
    exact List.mem_cons_self _ _

theorem wsSingle_space_of_mem {s : List Char} {c : Char}
    (h : wsSingle s = true) (hm : c ∈ s) (hs : isSpace c = true) : c = ' ' := by
  simp only [wsSingle, List.all_eq_true] at h
  have := h c hm
  rw [Bool.or_eq_true, Bool.not_eq_true'] at this
  rcases this with h' | h'
  · rw [hs] at h'; exact absurd h' (by simp)
  · exact of_decide_eq_true h'

theorem normalize_shape_core (w : List Char) :
    stripWs (stripIn [' ', '-'] (stripWs (collapseWs w))) =
      stripIn [' ', '-'] (stripWs (collapseWs w)) ∧
    collapseWs (stripIn [' ', '-'] (stripWs (collapseWs w))) =
      stripIn [' ', '-'] (stripWs (collapseWs w)) ∧
    stripIn [' ', '-'] (stripIn [' ', '-'] (stripWs (collapseWs w))) =
      stripIn [' ', '-'] (stripWs (collapseWs w)) := by
  have hws : wsSingle (collapseWs w) = true := collapseWsGo_wsSingle false w
  have hna : noAdjWs (collapseWs w) = true := collapseWsGo_noAdj false w
  have hzin : stripWs (collapseWs w) <:+: collapseWs w :=
    stripP_infix isSpace (collapseWs w)
  have hwz : wsSingle (stripWs (collapseWs w)) = true :=
    wsSingle_subset hzin.subset hws
  have hnz : noAdjWs (stripWs (collapseWs w)) = true := noAdjWs_infix hzin hna
  have hyin : stripIn [' ', '-'] (stripWs (collapseWs w)) <:+: stripWs (collapseWs w) :=
    stripP_infix _ (stripWs (collapseWs w))
  have hwy : wsSingle (stripIn [' ', '-'] (stripWs (collapseWs w))) = true :=
    wsSingle_subset hyin.subset hwz
  have hny : noAdjWs (stripIn [' ', '-'] (stripWs (collapseWs w))) = true :=
    noAdjWs_infix hyin hnz
  have hheady : ∀ c, (stripIn [' ', '-'] (stripWs (collapseWs w))).head? = some c →
      isSpace c = false := by
    intro c hc
    cases hyc : stripIn [' ', '-'] (stripWs (collapseWs w)) with
    | nil => rw [hyc] at hc; exact absurd hc (by simp)
    | cons d ds =>
      rw [hyc] at hc
      have hd : d = c := by simpa using hc
      have hq := stripP_head_not (fun c => ([' ', '-'] : List Char).contains c)
        (stripWs (collapseWs w)) hyc
      rw [hd] at hq
      by_cases hs : isSpace c = true
      · exfalso
        have hmem : c ∈ stripIn [' ', '-'] (stripWs (collapseWs w)) := by
          rw [hyc, hd]; exact List.mem_cons_self _ _
        have := wsSingle_space_of_mem hwy hmem hs
        rw [this] at hq
        simp at hq
      · exact Bool.not_eq_true _ ▸ Bool.eq_false_iff.mpr hs
  have hlasty : ∀ c, (stripIn [' ', '-'] (stripWs (collapseWs w))).getLast? = some c →
      isSpace c = false := by
    intro c hc
    have hq := stripP_getLast_not (fun c => ([' ', '-'] : List Char).contains c)
      (stripWs (collapseWs w)) hc
    by_cases hs : isSpace c = true
    · exfalso
      have hmem := mem_of_getLast_opt hc
      have := wsSingle_space_of_mem hwy hmem hs
      rw [this] at hq
      simp at hq
    · exact Bool.eq_false_iff.mpr hs
  exact ⟨stripP_eq_self _ _ hheady hlasty,
    collapseWs_id _ hwy hny,
    stripP_idem _ (stripWs (collapseWs w))⟩

theorem normalize_shape (language x : List Char) :
    stripWs (CleanMeta._normalize_title language x) =
      CleanMeta._normalize_title language x ∧
    collapseWs (CleanMeta._normalize_title language x) =
      CleanMeta._normalize_title language x ∧
    stripIn [' ', '-'] (CleanMeta._normalize_title language x) =
      CleanMeta._normalize_title language x := by
  unfold CleanMeta._normalize_title
  dsimp only
  split
  · rename_i h
    rw [h]
    exact ⟨rfl, rfl, rfl⟩
  · exact normalize_shape_core _

theorem subFrom1Go_id :
    ∀ (fuel : Nat) (s : List Char), hasFrom1 s = false → subFrom1Go fuel s = s
  | 0, _, _ => rfl
  | _ + 1, [], _ => rfl
  | fuel + 1, c :: cs, h => by
    unfold hasFrom1 at h
    rw [Bool.or_eq_false_iff] at h
    have hp : fromPat1At (c :: cs) = none := by
      cases hP : fromPat1At (c :: cs) with
      | none => rfl
      | some r => rw [hP] at h; exact absurd h.1 (by simp)
    unfold subFrom1Go
    rw [hp]
    dsimp only
    rw [subFrom1Go_id fuel cs h.2]

theorem subFrom1_id (s : List Char) (h : hasFrom1 s = false) : subFrom1 s = s :=
  subFrom1Go_id _ s h

theorem subFrom2_id : ∀ s : List Char, hasFrom2 s = false → subFrom2 s = s
  | [], _ => rfl
  | c :: cs, h => by
    unfold hasFrom2 at h
    rw [Bool.or_eq_false_iff] at h
    have hp : fromPat2At (c :: cs) = none := by
      cases hP : fromPat2At (c :: cs) with
      | none => rfl
      | some r => rw [hP] at h; exact absurd h.1 (by simp)
    unfold subFrom2
    rw [hp]
    dsimp only
    rw [subFrom2_id cs h.2]

theorem subFrom3_id : ∀ s : List Char, hasFrom3 s = false → subFrom3 s = s
  | [], _ => rfl
  | c :: cs, h => by
    unfold hasFrom3 at h
    rw [Bool.or_eq_false_iff] at h
    have hp : fromPat3At (c :: cs) = none := by
      cases hP : fromPat3At (c :: cs) with
      | none => rfl
      | some r => rw [hP] at h; exact absurd h.1 (by simp)
    unfold subFrom3
    rw [hp]
    dsimp only
    rw [subFrom3_id cs h.2]

theorem subFeat1Go_id :
    ∀ (fuel : Nat) (s : List Char), hasFeat1 s = false → subFeat1Go fuel s = s
  | 0, _, _ => rfl
  | _ + 1, [], _ => rfl
  | fuel + 1, c :: cs, h => by
    unfold hasFeat1 at h
    rw [Bool.or_eq_false_iff] at h
    have hp : featPat1At (c :: cs) = none := by
      cases hP : featPat1At (c :: cs) with
      | none => rfl
      | some r => rw [hP] at h; exact absurd h.1 (by simp)
    unfold subFeat1Go
    rw [hp]
    dsimp only
    rw [subFeat1Go_id fuel cs h.2]

theorem subFeat1_id (s : List Char) (h : hasFeat1 s = false) : subFeat1 s = s :=
  subFeat1Go_id _ s h

theorem subFeat2_id : ∀ s : List Char, hasFeat2 s = false → subFeat2 s = s
  | [], _ => rfl
  | c :: cs, h => by
    unfold hasFeat2 at h
    rw [Bool.or_eq_false_iff] at h
    have hp : featPat2At (c :: cs) = none := by
      cases hP : featPat2At (c :: cs) with
      | none => rfl
      | some r => rw [hP] at h; exact absurd h.1 (by simp)
    unfold subFeat2
    rw [hp]
    dsimp only
    rw [subFeat2_id cs h.2]

theorem subFeat3_id : ∀ s : List Char, hasFeat3 s = false → subFeat3 s = s
  | [], _ => rfl
  | c :: cs, h => by
    unfold hasFeat3 at h
    rw [Bool.or_eq_false_iff] at h
    have hp : featPat3At (c :: cs) = none := by
      cases hP : featPat3At (c :: cs) with
      | none => rfl
      | some r => rw [hP] at h; exact absurd h.1 (by simp)
    unfold subFeat3
    rw [hp]
    dsimp only
    rw [subFeat3_id cs h.2]

theorem normalize_fixed (language y : List Char)
    (h : noResidual language y = true)
    (hsw : stripWs y = y) (hcw : collapseWs y = y)
    (hsi : stripIn [' ', '-'] y = y) :
    CleanMeta._normalize_title language y = y := by
  simp only [noResidual, Bool.and_eq_true, Bool.not_eq_true'] at h
  obtain ⟨⟨⟨h1, h2⟩, h3⟩, h4⟩ := h
  unfold CleanMeta._normalize_title
  dsimp only
  rw [hsw]
  by_cases hz : y = []
  · rw [if_pos hz]
  · rw [if_neg hz]
    rw [subFrom1_id y h1, subFrom2_id y h2, subFrom3_id y h3]
    by_cases hl : language = "english".data
    · rw [if_pos hl]
      rw [if_pos hl] at h4
      simp only [Bool.and_eq_true, Bool.not_eq_true'] at h4
      obtain ⟨⟨hf1, hf2⟩, hf3⟩ := h4
      rw [subFeat1_id y hf1, subFeat2_id y hf2, subFeat3_id y hf3]
      rw [hcw, hsw, hsi]
    · rw [if_neg hl]
      rw [hcw, hsw, hsi]

/-- C5 (counterexample): `_normalize_title` is not idempotent: for the
title `((from a)from b)` one pass leaves `(from b)` — removing the inner
parenthetical creates a fresh `(from ...)` occurrence — and a second pass
removes it, so applying the normalizer twice differs from applying it
once. -/
theorem c5_normalize_not_idempotent :
    CleanMeta._normalize_title "tamil".data
        (CleanMeta._normalize_title "tamil".data "((from a)from b)".data) ≠
      CleanMeta._normalize_title "tamil".data "((from a)from b)".data := by
  decide

/-- C5 (amended): `_normalize_title` is idempotent on every input whose
first normalization leaves no residual occurrence of the removal patterns
applicable to the language: one further application is then the
identity. -/
theorem c5_normalize_idempotent_amended (language x : List Char)
    (h : noResidual language (CleanMeta._normalize_title language x) = true) :
    CleanMeta._normalize_title language (CleanMeta._normalize_title language x) =
      CleanMeta._normalize_title language x := by
  obtain ⟨hsw, hcw, hsi⟩ := normalize_shape language x
  exact normalize_fixed language _ h hsw hcw hsi

theorem c5_normalize_idempotent_amended_witness :
    noResidual "tamil".data
        (CleanMeta._normalize_title "tamil".data "Song Name".data) = true ∧
    CleanMeta._normalize_title "tamil".data
        (CleanMeta._normalize_title "tamil".data "Song Name".data) =
      CleanMeta._normalize_title "tamil".data "Song Name".data :=
  ⟨by decide,
   c5_normalize_idempotent_amended "tamil".data "Song Name".data (by decide)⟩
